import Mathlib

/-!
A verification development for the fastpack binary serialization codec
(src/fastpack/core.py), a MessagePack-compatible encoder and decoder.

Modelling conventions:
* A Python value is embedded as `Value`.  Machine integers are `Int`/`Nat`
  with explicit bounds; a Python `float` is represented by the 64-bit
  big-endian IEEE-754 bit pattern that `struct.pack` with format `>d`
  would emit (the codec never inspects the numeric value, only the 8
  payload bytes).  A Python `str` is represented by its UTF-8 byte
  sequence (`value.encode` in `_pack_str` is the identity under this
  representation, and `bytes.decode` in `_unpack_str` becomes a UTF-8
  validity check).
* `Value.record` stands for a record-like object (a dataclass instance:
  a type name plus named fields); `Value.other` stands for a value of
  any other unsupported runtime type (a set, an object(), ...).  Both
  fall into the `else` branch of `_pack_value` in core.py.
* Byte strings are `List Nat`; the encoder only ever emits entries
  below 256.
* Exceptions are `Except` errors: `TypeError` in `_pack_value` becomes
  `PackErr.typeUnsupported`; `struct.error` (raised by struct.pack and
  struct.unpack on width/range violations) becomes `structError`;
  `IndexError` (raised by `data[offset]` past the end) becomes
  `indexError`; the two `ValueError`s of `_unpack_value` become
  `truncatedInput` and `unknownMarker`; `UnicodeDecodeError` becomes
  `invalidText`; `TypeError` from `result[key] = value` on an
  unhashable key becomes `unhashableKey`.
* The decoder in core.py recurses on the byte stream; the embedding
  threads an explicit fuel argument.  The public `unpack` passes
  `data.length + 1` fuel, which dominates the nesting depth of any
  stream (every nesting level consumes at least one marker byte).
* The type registry and extension layer live in fastpack/types.py and
  the v0.3 dispatch, which are not present under src/ (the package
  init imports them); the definitions marked `Modelled from the spec`
  reconstruct the behaviour the specification describes for them.
-/

/-- The universal value type of the codec (spec section 3), as the shapes
`_pack_value` in core.py dispatches on: None, bool, int, float, str
(as UTF-8 bytes), bytes, list, dict (as an insertion-ordered pair list),
plus record-like values (dataclass instances: type name as UTF-8 bytes
and named fields) and values of any other unsupported runtime type. -/
inductive Value where
  | nil
  | bool (b : Bool)
  | int (n : Int)
  | float (bits : Nat)
  | str (s : List Nat)
  | bytes (b : List Nat)
  | list (xs : List Value)
  | dict (kvs : List (Value × Value))
  | record (name : List Nat) (fields : List (Value × Value))
  | other (ty : String)

mutual
/-- Structural equality of values, mirroring Python equality on the
codec domain (floats compare by bit pattern). -/
def beqV (a b : Value) : Bool :=
  match a with
  | .nil => match b with | .nil => true | _ => false
  | .bool x => match b with | .bool y => x == y | _ => false
  | .int x => match b with | .int y => x == y | _ => false
  | .float x => match b with | .float y => x == y | _ => false
  | .str x => match b with | .str y => x == y | _ => false
  | .bytes x => match b with | .bytes y => x == y | _ => false
  | .list xs => match b with | .list ys => beqL xs ys | _ => false
  | .dict kvs => match b with | .dict ys => beqP kvs ys | _ => false
  | .record n f => match b with | .record n2 f2 => (n == n2) && beqP f f2 | _ => false
  | .other x => match b with | .other y => x == y | _ => false
/-- Pointwise equality of value lists. -/
def beqL (as bs : List Value) : Bool :=
  match as with
  | [] => match bs with | [] => true | _ => false
  | a :: t => match bs with | b :: bt => beqV a b && beqL t bt | _ => false
/-- Pointwise equality of key-value pair lists. -/
def beqP (as bs : List (Value × Value)) : Bool :=
  match as with
  | [] => match bs with | [] => true | _ => false
  | (k1, v1) :: t => match bs with | (k2, v2) :: bt => beqV k1 k2 && beqV v1 v2 && beqP t bt | _ => false
end

/-- Big-endian bytes of `n` at width `w` (struct.pack with formats
`>H`, `>I`, `>Q` and the twos-complement reinterpretations). -/
def be (w : Nat) (n : Nat) : List Nat :=
  match w with
  | 0 => []
  | w + 1 => (n / 2 ^ (8 * w)) % 256 :: be w n

/-- The unsigned big-endian value of a byte list (struct.unpack with
formats `>H`, `>I`, `>Q`). -/
def beVal (bs : List Nat) : Nat := bs.foldl (fun a b => a * 256 + b) 0

/-- Reinterpret a `w`-byte unsigned value as twos-complement signed
(struct.unpack with formats `>b`, `>h`, `>i`, `>q`). -/
def toSigned (w : Nat) (u : Nat) : Int :=
  if u < 2 ^ (8 * w - 1) then (u : Int) else (u : Int) - 2 ^ (8 * w)

/-- A UTF-8 continuation byte (10xxxxxx). -/
def utf8Cont (b : Nat) : Bool := 128 ≤ b && b ≤ 191

/-- UTF-8 validity of a byte sequence, as checked by bytes.decode in
`_unpack_str` (RFC 3629: no overlong forms, no surrogates, max U+10FFFF). -/
def utf8Valid (s : List Nat) : Bool :=
  match s with
  | [] => true
  | b :: rest =>
    if b ≤ 127 then utf8Valid rest
    else if 194 ≤ b && b ≤ 223 then
      match rest with
      | c :: rest2 => utf8Cont c && utf8Valid rest2
      | [] => false
    else if b = 224 then
      match rest with
      | c1 :: c2 :: rest2 => (160 ≤ c1 && c1 ≤ 191) && utf8Cont c2 && utf8Valid rest2
      | _ => false
    else if (225 ≤ b && b ≤ 236) || b = 238 || b = 239 then
      match rest with
      | c1 :: c2 :: rest2 => utf8Cont c1 && utf8Cont c2 && utf8Valid rest2
      | _ => false
    else if b = 237 then
      match rest with
      | c1 :: c2 :: rest2 => (128 ≤ c1 && c1 ≤ 159) && utf8Cont c2 && utf8Valid rest2
      | _ => false
    else if b = 240 then
      match rest with
      | c1 :: c2 :: c3 :: rest2 => (144 ≤ c1 && c1 ≤ 191) && utf8Cont c2 && utf8Cont c3 && utf8Valid rest2
      | _ => false
    else if 241 ≤ b && b ≤ 243 then
      match rest with
      | c1 :: c2 :: c3 :: rest2 => utf8Cont c1 && utf8Cont c2 && utf8Cont c3 && utf8Valid rest2
      | _ => false
    else if b = 244 then
      match rest with
      | c1 :: c2 :: c3 :: rest2 => (128 ≤ c1 && c1 ≤ 143) && utf8Cont c2 && utf8Cont c3 && utf8Valid rest2
      | _ => false
    else false

/-- Whether a decoded value may be used as a Python dict key
(lists and dicts are unhashable; `result[key] = value` in
`_unpack_map` raises TypeError on them). -/
def hashableKey (k : Value) : Bool :=
  match k with
  | .list _ => false
  | .dict _ => false
  | _ => true

/-- Whether a key equal to `k` occurs in the pair list. -/
def keyMem (k : Value) (kvs : List (Value × Value)) : Bool :=
  kvs.any (fun p => beqV p.1 k)

/-- Python dict assignment `result[key] = value`: replace the value at
an existing equal key in place, otherwise append the pair. -/
def dictSet (kvs : List (Value × Value)) (k v : Value) : List (Value × Value) :=
  match kvs with
  | [] => [(k, v)]
  | (k0, v0) :: rest => if beqV k0 k then (k0, v) :: rest else (k0, v0) :: dictSet rest k v

/-- Python dict lookup: the value at the first equal key. -/
def dictLookup (kvs : List (Value × Value)) (k : Value) : Option Value :=
  match kvs with
  | [] => none
  | (k0, v0) :: rest => if beqV k0 k then some v0 else dictLookup rest k

/-- The value of the last occurrence of key `k` in a pair sequence. -/
def lastBinding (kvs : List (Value × Value)) (k : Value) : Option Value :=
  match kvs with
  | [] => none
  | (k0, v0) :: rest =>
    match lastBinding rest k with
    | some v => some v
    | none => if beqV k0 k then some v0 else none

/-- Widen a 32-bit IEEE-754 bit pattern to the 64-bit pattern of the
same number (struct.unpack with format `>f` yields a Python float).
Only reachable through the 0xCA marker, which the encoder never emits. -/
def f32tof64 (b : Nat) : Nat :=
  let s := b / 2 ^ 31
  let e := (b / 2 ^ 23) % 256
  let m := b % 2 ^ 23
  if e = 255 then s * 2 ^ 63 + 2047 * 2 ^ 52 + m * 2 ^ 29
  else if e = 0 then
    if m = 0 then s * 2 ^ 63
    else
      let p := Nat.log2 m
      s * 2 ^ 63 + (874 + p) * 2 ^ 52 + (m * 2 ^ (52 - p)) % 2 ^ 52
  else s * 2 ^ 63 + (e + 896) * 2 ^ 52 + m * 2 ^ 29

/-- Encode-side failures: `typeUnsupported` is the TypeError raised by
the else branch of `_pack_value`; `structError` is the struct.error
raised by struct.pack when a value or length exceeds the format width. -/
inductive PackErr where
  | typeUnsupported
  | structError
  deriving DecidableEq

/-- The integer ladder of `_pack_int` (core.py lines 115 to 146), with
the same conditions in the same order.  The final else branch performs
struct.pack with format `>q`, which raises struct.error unless
the value fits in a signed 64-bit integer. -/
def packInt (n : Int) : Except PackErr (List Nat) :=
  if 0 ≤ n ∧ n ≤ 127 then .ok [n.toNat]
  else if -32 ≤ n ∧ n < 0 then .ok [(n + 256).toNat]
  else if 0 ≤ n ∧ n ≤ 255 then .ok [204, n.toNat]
  else if 0 ≤ n ∧ n ≤ 65535 then .ok (205 :: be 2 n.toNat)
  else if 0 ≤ n ∧ n ≤ 4294967295 then .ok (206 :: be 4 n.toNat)
  else if 0 ≤ n ∧ n ≤ 18446744073709551615 then .ok (207 :: be 8 n.toNat)
  else if -128 ≤ n ∧ n < 0 then .ok (208 :: be 1 (n + 256).toNat)
  else if -32768 ≤ n ∧ n < 0 then .ok (209 :: be 2 (n + 65536).toNat)
  else if -2147483648 ≤ n ∧ n < 0 then .ok (210 :: be 4 (n + 4294967296).toNat)
  else if -9223372036854775808 ≤ n ∧ n ≤ 9223372036854775807 then
    .ok (211 :: be 8 (n + 18446744073709551616).toNat)
  else .error .structError

/-- `_pack_float` (core.py lines 149 to 152): always the 64-bit marker
0xCB followed by the 8 payload bytes. -/
def packFloat (bits : Nat) : List Nat := 203 :: be 8 bits

/-- `_pack_str` (core.py lines 155 to 173); `s` is already the UTF-8
encoding of the string.  The final branch packs the length with format
`>I`, which raises struct.error for lengths of 2 to the 32 or more. -/
def packStr (s : List Nat) : Except PackErr (List Nat) :=
  if s.length ≤ 31 then .ok ((160 ||| s.length) :: s)
  else if s.length ≤ 255 then .ok (217 :: s.length :: s)
  else if s.length ≤ 65535 then .ok (218 :: (be 2 s.length ++ s))
  else if s.length ≤ 4294967295 then .ok (219 :: (be 4 s.length ++ s))
  else .error .structError

/-- `_pack_bytes` (core.py lines 176 to 190). -/
def packBytes (b : List Nat) : Except PackErr (List Nat) :=
  if b.length ≤ 255 then .ok (196 :: b.length :: b)
  else if b.length ≤ 65535 then .ok (197 :: (be 2 b.length ++ b))
  else if b.length ≤ 4294967295 then .ok (198 :: (be 4 b.length ++ b))
  else .error .structError

/-- The header bytes `_pack_list` (core.py lines 193 to 205) appends
before the elements. -/
def arrayHeader (n : Nat) : Except PackErr (List Nat) :=
  if n ≤ 15 then .ok [144 ||| n]
  else if n ≤ 65535 then .ok (220 :: be 2 n)
  else if n ≤ 4294967295 then .ok (221 :: be 4 n)
  else .error .structError

/-- The header bytes `_pack_dict` (core.py lines 211 to 223) appends
before the pairs. -/
def mapHeader (n : Nat) : Except PackErr (List Nat) :=
  if n ≤ 15 then .ok [128 ||| n]
  else if n ≤ 65535 then .ok (222 :: be 2 n)
  else if n ≤ 4294967295 then .ok (223 :: be 4 n)
  else .error .structError

mutual
/-- `_pack_value` (core.py lines 82 to 112), with the branches in source
order: None, True, False, int, float, str, bytes, list, dict, and a
TypeError for everything else (record-like values and other unsupported
types both fall into the else branch of this version of core.py).
Buffer appends become list concatenation; a raised exception discards
the buffer, which `Except.error` models. -/
def packValue (v : Value) : Except PackErr (List Nat) :=
  match v with
  | .nil => .ok [192]
  | .bool true => .ok [195]
  | .bool false => .ok [194]
  | .int n => packInt n
  | .float bits => .ok (packFloat bits)
  | .str s => packStr s
  | .bytes b => packBytes b
  | .list xs =>
    match arrayHeader xs.length with
    | .error e => .error e
    | .ok header =>
      match packSeq xs with
      | .error e => .error e
      | .ok body => .ok (header ++ body)
  | .dict kvs =>
    match mapHeader kvs.length with
    | .error e => .error e
    | .ok header =>
      match packPairs kvs with
      | .error e => .error e
      | .ok body => .ok (header ++ body)
  | .record _ _ => .error .typeUnsupported
  | .other _ => .error .typeUnsupported
/-- The element loop of `_pack_list` (core.py lines 207 to 208). -/
def packSeq (xs : List Value) : Except PackErr (List Nat) :=
  match xs with
  | [] => .ok []
  | x :: rest =>
    match packValue x with
    | .error e => .error e
    | .ok xb =>
      match packSeq rest with
      | .error e => .error e
      | .ok rb => .ok (xb ++ rb)
/-- The pair loop of `_pack_dict` (core.py lines 225 to 227). -/
def packPairs (kvs : List (Value × Value)) : Except PackErr (List Nat) :=
  match kvs with
  | [] => .ok []
  | (k, v) :: rest =>
    match packValue k with
    | .error e => .error e
    | .ok kb =>
      match packValue v with
      | .error e => .error e
      | .ok vb =>
        match packPairs rest with
        | .error e => .error e
        | .ok rb => .ok (kb ++ (vb ++ rb))
end

/-- `pack` (core.py lines 37 to 62): serialize one value. -/
def pack (v : Value) : Except PackErr (List Nat) := packValue v

/-- Decode-side failures (see the module comment for the exception map):
`truncatedInput` is the ValueError raised when `_unpack_value` is asked
to read at or past the end of the data; `unknownMarker` is the ValueError
for an unassigned marker byte; `structError` and `indexError` are the
struct.error and IndexError escaping from truncated fixed-width reads;
`invalidText` is the UnicodeDecodeError from `_unpack_str`;
`unhashableKey` is the TypeError from storing an unhashable map key;
`fuelOut` is the recursion-depth artifact of the embedding. -/
inductive DecErr where
  | truncatedInput
  | structError
  | indexError
  | unknownMarker
  | invalidText
  | unhashableKey
  | fuelOut
  deriving DecidableEq

/-- `_unpack_str` (core.py lines 357 to 360): slice `length` bytes from
`offset` (a Python slice silently stops at the end of the data) and
decode as UTF-8; the returned offset is `offset + length` regardless. -/
def unpackStr (d : List Nat) (o : Nat) (len : Nat) : Except DecErr (Value × Nat) :=
  if utf8Valid ((d.drop o).take len) then .ok (.str ((d.drop o).take len), o + len)
  else .error .invalidText

/-- `_unpack_array` (core.py lines 363 to 369): decode `n` elements in
order; `next` is the recursive `_unpack_value` reference (the fuel is
threaded by the caller). -/
def unpackArray (next : List Nat → Nat → Except DecErr (Value × Nat)) (n : Nat)
    (d : List Nat) (o : Nat) : Except DecErr (List Value × Nat) :=
  match n with
  | 0 => .ok ([], o)
  | n + 1 =>
    match next d o with
    | .error e => .error e
    | .ok (v, o1) =>
      match unpackArray next n d o1 with
      | .error e => .error e
      | .ok (vs, o2) => .ok (v :: vs, o2)

/-- `_unpack_map` (core.py lines 372 to 379): decode `n` key-value
pairs, storing each with Python dict assignment (duplicate keys
overwrite, TypeError on an unhashable key); `acc` is the `result`
dict being built. -/
def unpackMap (next : List Nat → Nat → Except DecErr (Value × Nat)) (n : Nat)
    (d : List Nat) (o : Nat) (acc : List (Value × Value)) :
    Except DecErr (List (Value × Value) × Nat) :=
  match n with
  | 0 => .ok (acc, o)
  | n + 1 =>
    match next d o with
    | .error e => .error e
    | .ok (k, o1) =>
      match next d o1 with
      | .error e => .error e
      | .ok (v, o2) =>
        if hashableKey k then unpackMap next n d o2 (dictSet acc k v)
        else .error .unhashableKey

/-- The marker dispatch of `_unpack_value` (core.py lines 238 to 354),
with the branches in source order; `o` is the offset just past the
marker byte and `next` is the recursive `_unpack_value` reference.
Fixed-width reads model struct.unpack on a slice: they fail with
struct.error when fewer bytes remain than the format needs, while the
length-prefixed binary and string payload slices silently truncate at
the end of the data, exactly as Python slicing does. -/
def unpackStep (next : List Nat → Nat → Except DecErr (Value × Nat))
    (d : List Nat) (o : Nat) (marker : Nat) : Except DecErr (Value × Nat) :=
  if marker ≤ 127 then .ok (.int marker, o)
  else if 128 ≤ marker ∧ marker ≤ 143 then
    match unpackMap next (marker &&& 15) d o [] with
    | .error e => .error e
    | .ok (kvs, o1) => .ok (.dict kvs, o1)
  else if 144 ≤ marker ∧ marker ≤ 159 then
    match unpackArray next (marker &&& 15) d o with
    | .error e => .error e
    | .ok (vs, o1) => .ok (.list vs, o1)
  else if 160 ≤ marker ∧ marker ≤ 191 then unpackStr d o (marker &&& 31)
  else if 224 ≤ marker then .ok (.int ((marker : Int) - 256), o)
  else if marker = 192 then .ok (.nil, o)
  else if marker = 194 then .ok (.bool false, o)
  else if marker = 195 then .ok (.bool true, o)
  else if marker = 196 then
    if o < d.length then
      .ok (.bytes ((d.drop (o + 1)).take (d.getD o 0)), o + 1 + d.getD o 0)
    else .error .indexError
  else if marker = 197 then
    if o + 2 ≤ d.length then
      .ok (.bytes ((d.drop (o + 2)).take (beVal ((d.drop o).take 2))),
           o + 2 + beVal ((d.drop o).take 2))
    else .error .structError
  else if marker = 198 then
    if o + 4 ≤ d.length then
      .ok (.bytes ((d.drop (o + 4)).take (beVal ((d.drop o).take 4))),
           o + 4 + beVal ((d.drop o).take 4))
    else .error .structError
  else if marker = 202 then
    if o + 4 ≤ d.length then .ok (.float (f32tof64 (beVal ((d.drop o).take 4))), o + 4)
    else .error .structError
  else if marker = 203 then
    if o + 8 ≤ d.length then .ok (.float (beVal ((d.drop o).take 8)), o + 8)
    else .error .structError
  else if marker = 204 then
    if o < d.length then .ok (.int (d.getD o 0), o + 1) else .error .indexError
  else if marker = 205 then
    if o + 2 ≤ d.length then .ok (.int (beVal ((d.drop o).take 2)), o + 2)
    else .error .structError
  else if marker = 206 then
    if o + 4 ≤ d.length then .ok (.int (beVal ((d.drop o).take 4)), o + 4)
    else .error .structError
  else if marker = 207 then
    if o + 8 ≤ d.length then .ok (.int (beVal ((d.drop o).take 8)), o + 8)
    else .error .structError
  else if marker = 208 then
    if o + 1 ≤ d.length then .ok (.int (toSigned 1 (beVal ((d.drop o).take 1))), o + 1)
    else .error .structError
  else if marker = 209 then
    if o + 2 ≤ d.length then .ok (.int (toSigned 2 (beVal ((d.drop o).take 2))), o + 2)
    else .error .structError
  else if marker = 210 then
    if o + 4 ≤ d.length then .ok (.int (toSigned 4 (beVal ((d.drop o).take 4))), o + 4)
    else .error .structError
  else if marker = 211 then
    if o + 8 ≤ d.length then .ok (.int (toSigned 8 (beVal ((d.drop o).take 8))), o + 8)
    else .error .structError
  else if marker = 217 then
    if o < d.length then unpackStr d (o + 1) (d.getD o 0) else .error .indexError
  else if marker = 218 then
    if o + 2 ≤ d.length then unpackStr d (o + 2) (beVal ((d.drop o).take 2))
    else .error .structError
  else if marker = 219 then
    if o + 4 ≤ d.length then unpackStr d (o + 4) (beVal ((d.drop o).take 4))
    else .error .structError
  else if marker = 220 then
    if o + 2 ≤ d.length then
      match unpackArray next (beVal ((d.drop o).take 2)) d (o + 2) with
      | .error e => .error e
      | .ok (vs, o1) => .ok (.list vs, o1)
    else .error .structError
  else if marker = 221 then
    if o + 4 ≤ d.length then
      match unpackArray next (beVal ((d.drop o).take 4)) d (o + 4) with
      | .error e => .error e
      | .ok (vs, o1) => .ok (.list vs, o1)
    else .error .structError
  else if marker = 222 then
    if o + 2 ≤ d.length then
      match unpackMap next (beVal ((d.drop o).take 2)) d (o + 2) [] with
      | .error e => .error e
      | .ok (kvs, o1) => .ok (.dict kvs, o1)
    else .error .structError
  else if marker = 223 then
    if o + 4 ≤ d.length then
      match unpackMap next (beVal ((d.drop o).take 4)) d (o + 4) [] with
      | .error e => .error e
      | .ok (kvs, o1) => .ok (.dict kvs, o1)
    else .error .structError
  else .error .unknownMarker

/-- `_unpack_value` (core.py lines 230 to 236 plus the dispatch):
fail with the truncation ValueError when the offset is at or past the
end, otherwise read the marker byte, advance the offset, and dispatch.
The fuel argument only bounds the recursion depth of the embedding. -/
def unpackValue (fuel : Nat) (d : List Nat) (o : Nat) : Except DecErr (Value × Nat) :=
  match fuel with
  | 0 => .error .fuelOut
  | fuel + 1 =>
    if o ≥ d.length then .error .truncatedInput
    else unpackStep (unpackValue fuel) d (o + 1) (d.getD o 0)

/-- `unpack` (core.py lines 65 to 79): decode one value from the start
of the data and discard the count of consumed bytes.  The fuel
`d.length + 1` exceeds the nesting depth of any decodable stream, since
each nesting level consumes at least one marker byte. -/
def unpack (d : List Nat) : Except DecErr Value :=
  match unpackValue (d.length + 1) d 0 with
  | .error e => .error e
  | .ok (v, _) => .ok v

mutual
/-- Well-formedness of a value as an embeddable, encodable Python value:
integers within the 64-bit ladder, float patterns within 64 bits,
strings valid UTF-8 (a Python str always encodes to valid UTF-8),
lengths below 2 to the 32 (the widest length field), byte entries
below 256, dict keys hashable and pairwise distinct (a Python dict
cannot hold two equal keys). -/
def wfVal (v : Value) : Bool :=
  match v with
  | .nil => true
  | .bool _ => true
  | .int n => decide (-9223372036854775808 ≤ n) && decide (n ≤ 18446744073709551615)
  | .float bits => decide (bits < 18446744073709551616)
  | .str s => decide (s.length < 4294967296) && utf8Valid s
  | .bytes b => decide (b.length < 4294967296) && b.all (fun x => decide (x < 256))
  | .list xs => decide (xs.length < 4294967296) && wfList xs
  | .dict kvs => decide (kvs.length < 4294967296) && wfPairs kvs
  | .record _ _ => false
  | .other _ => false
/-- Well-formedness of each element of a sequence. -/
def wfList (xs : List Value) : Bool :=
  match xs with
  | [] => true
  | x :: rest => wfVal x && wfList rest
/-- Well-formedness of mapping pairs: both components well-formed, the
key hashable, and no equal key later in the list. -/
def wfPairs (kvs : List (Value × Value)) : Bool :=
  match kvs with
  | [] => true
  | (k, v) :: rest => wfVal k && wfVal v && hashableKey k && !keyMem k rest && wfPairs rest
end

mutual
/-- Whether some sub-value has a runtime type outside the eight
structural shapes of `_pack_value` (a record-like value or any other
unsupported type). -/
def hasUnsupported (v : Value) : Bool :=
  match v with
  | .list xs => hasUnsupportedL xs
  | .dict kvs => hasUnsupportedP kvs
  | .record _ _ => true
  | .other _ => true
  | _ => false
/-- `hasUnsupported` over a sequence. -/
def hasUnsupportedL (xs : List Value) : Bool :=
  match xs with
  | [] => false
  | x :: rest => hasUnsupported x || hasUnsupportedL rest
/-- `hasUnsupported` over mapping pairs. -/
def hasUnsupportedP (kvs : List (Value × Value)) : Bool :=
  match kvs with
  | [] => false
  | (k, v) :: rest => hasUnsupported k || hasUnsupported v || hasUnsupportedP rest
end

mutual
/-- Whether every supported sub-value fits its widest marker: integers
within the 64-bit ladder and every length below 2 to the 32, so that no
struct.error can pre-empt the traversal.  Record-like and other
unsupported sub-values are unconstrained (the encoder fails on them
before reading any width). -/
def wfWidths (v : Value) : Bool :=
  match v with
  | .nil => true
  | .bool _ => true
  | .int n => decide (-9223372036854775808 ≤ n) && decide (n ≤ 18446744073709551615)
  | .float _ => true
  | .str s => decide (s.length < 4294967296)
  | .bytes b => decide (b.length < 4294967296)
  | .list xs => decide (xs.length < 4294967296) && wfWidthsL xs
  | .dict kvs => decide (kvs.length < 4294967296) && wfWidthsP kvs
  | .record _ _ => true
  | .other _ => true
/-- `wfWidths` over a sequence. -/
def wfWidthsL (xs : List Value) : Bool :=
  match xs with
  | [] => true
  | x :: rest => wfWidths x && wfWidthsL rest
/-- `wfWidths` over mapping pairs. -/
def wfWidthsP (kvs : List (Value × Value)) : Bool :=
  match kvs with
  | [] => true
  | (k, v) :: rest => wfWidths k && wfWidths v && wfWidthsP rest
end

/-- The integer rows of the format catalog in spec section 4.1,
transcribed from the table: an admissible encoded length `w` (marker
plus payload bytes) for the integer `n`, one disjunct per ladder rung. -/
def intFormCovers (w : Nat) (n : Int) : Prop :=
  (w = 1 ∧ 0 ≤ n ∧ n ≤ 127) ∨
  (w = 1 ∧ -32 ≤ n ∧ n < 0) ∨
  (w = 2 ∧ 0 ≤ n ∧ n ≤ 255) ∨
  (w = 3 ∧ 0 ≤ n ∧ n ≤ 65535) ∨
  (w = 5 ∧ 0 ≤ n ∧ n ≤ 4294967295) ∨
  (w = 9 ∧ 0 ≤ n ∧ n ≤ 18446744073709551615) ∨
  (w = 2 ∧ -128 ≤ n ∧ n ≤ 127) ∨
  (w = 3 ∧ -32768 ≤ n ∧ n ≤ 32767) ∨
  (w = 5 ∧ -2147483648 ≤ n ∧ n ≤ 2147483647) ∨
  (w = 9 ∧ -9223372036854775808 ≤ n ∧ n ≤ 9223372036854775807)

/-- The markers of the unsigned integer ladder (positive fixint and
uint8 through uint64), spec section 4.1. -/
def isUnsignedMarker (b : Nat) : Bool :=
  (b ≤ 127) || (b = 204) || (b = 205) || (b = 206) || (b = 207)

/-- The round-trip property of a value: if it is well-formed and packs
to `enc`, then decoding any stream that carries `enc` at offset `o`
(with enough fuel) returns the value itself and consumes exactly
`enc.length` bytes. -/
def RT (v : Value) : Prop :=
  wfVal v = true → ∀ enc, packValue v = .ok enc →
    ∀ fuel d o rest, enc.length ≤ fuel → d.drop o = enc ++ rest →
      unpackValue fuel d o = .ok (v, o + enc.length)

/-- Modelled from the spec: the reserved extension marker byte.  The
extension wire format (spec sections 4.1 and 6: one reserved marker
byte, then a 1-byte type code, then a Mapping payload encoded through
the normal path) is implemented in fastpack/types.py and the v0.3
dispatch, which are absent from src/; 0xC7 is a marker the core
decoder leaves unassigned. -/
def extMarker : Nat := 199

/-- Modelled from the spec: the synthetic field name under which an
unresolved extension records its type code (spec section 4.3: the
Mapping is "annotated with a marker field identifying it as an
unresolved extension of that code").  The bytes spell out a dunder
name in the style of the package docstring. -/
def extKeyName : List Nat := [95, 95, 101, 120, 116, 101, 110, 115, 105, 111, 110, 95, 95]

/-- Modelled from the spec: decode-side registry lookup by extension
code (spec section 4.4); an entry carries the decode callback. -/
def findExt (reg : List (Nat × (Value → Value))) (code : Nat) : Option (Value → Value) :=
  (reg.find? (fun e => e.1 == code)).map (fun e => e.2)

/-- Modelled from the spec: the extension-aware decode entry point of
the missing fastpack/types.py layer (spec section 4.3).  On the
extension marker it reads the 1-byte type code, decodes the embedded
Mapping through the normal path, and consults the registry: a matching
entry decodes via its callback, an unknown code returns the Mapping
annotated with the code under `extKeyName` instead of failing.  Streams
not starting with the extension marker go through the core decoder;
extension markers nested below the top level are not modelled. -/
def unpackE (reg : List (Nat × (Value → Value))) (d : List Nat) : Except DecErr Value :=
  if d.length = 0 then .error .truncatedInput
  else if d.getD 0 0 = extMarker then
    if 1 < d.length then
      match unpackValue (d.length + 1) d 2 with
      | .ok (.dict kvs, _) =>
        match findExt reg (d.getD 1 0) with
        | some dec => .ok (dec (.dict kvs))
        | none => .ok (.dict (dictSet kvs (.str extKeyName) (.int (d.getD 1 0))))
      | .ok _ => .error .unknownMarker
      | .error e => .error e
    else .error .truncatedInput
  else unpack d

/-- Modelled from the spec: the synthetic type-name field of an
auto-detected record (the package docstring shows a packed dataclass
decoding to a dict with a dunder dataclass entry holding the class
name); the bytes spell that dunder name. -/
def dataclassKey : List Nat := [95, 95, 100, 97, 116, 97, 99, 108, 97, 115, 115, 95, 95]

/-- Modelled from the spec: the Mapping a record-like value is emitted
as (spec section 4.4: a Mapping carrying a synthetic marker field
identifying the record type name, followed by the named fields). -/
def recordAsMapping (name : List Nat) (fields : List (Value × Value)) : Value :=
  .dict ((.str dataclassKey, .str name) :: fields)

/-- Modelled from the spec: encode-side registry lookup by type
identity (spec section 4.4); an entry carries the extension code
assigned to the type name. -/
def lookupReg (reg : List (List Nat × Nat)) (name : List Nat) : Option Nat :=
  (reg.find? (fun e => e.1 == name)).map (fun e => e.2)

/-- Modelled from the spec: the v0.3 encoder path for a record-like
value (spec section 4.4).  An explicitly registered type is emitted as
an extension (marker, code, Mapping payload); an unregistered one is
auto-detected and emitted as a plain Mapping carrying the synthetic
type-name field. -/
def packRecordE (reg : List (List Nat × Nat)) (name : List Nat)
    (fields : List (Value × Value)) : Except PackErr (List Nat) :=
  match lookupReg reg name with
  | some code =>
    match packValue (.dict fields) with
    | .ok pd => .ok (extMarker :: code :: pd)
    | .error e => .error e
  | none => packValue (recordAsMapping name fields)

theorem beq_iff_aux : ∀ N,
    (∀ a b : Value, sizeOf a ≤ N → (beqV a b = true ↔ a = b)) ∧
    (∀ as bs : List Value, sizeOf as ≤ N → (beqL as bs = true ↔ as = bs)) ∧
    (∀ as bs : List (Value × Value), sizeOf as ≤ N → (beqP as bs = true ↔ as = bs)) := by
  intro N
  induction N with
  | zero =>
    refine ⟨?_, ?_, ?_⟩ <;> intro a b h <;> cases a <;> simp_all <;> omega
  | succ N ih =>
    obtain ⟨ihV, ihL, ihP⟩ := ih
    refine ⟨?_, ?_, ?_⟩
    · intro a b h
      cases a <;> cases b <;> simp_all [beqV]
      · exact ihL _ _ (by first | omega | (simp at h; omega))
      · exact ihP _ _ (by first | omega | (simp at h; omega))
      · rename_i n f n2 f2
        rw [ihP f f2 (by first | omega | (simp at h; omega))]
        tauto
    · intro as bs h
      cases as <;> cases bs <;> simp_all [beqL]
      rename_i a t b bt
      rw [ihV a b (by first | omega | (simp at h; omega)),
          ihL t bt (by first | omega | (simp at h; omega))]
    · intro as bs h
      cases as <;> cases bs <;> simp_all [beqP]
      rename_i p t q bt
      obtain ⟨k1, v1⟩ := p
      obtain ⟨k2, v2⟩ := q
      simp only [beqP, Bool.and_eq_true]
      rw [ihV k1 k2 (by first | omega | (simp at h; omega)),
          ihV v1 v2 (by first | omega | (simp at h; omega)),
          ihP t bt (by first | omega | (simp at h; omega))]
      simp_all

theorem beqV_iff (a b : Value) : beqV a b = true ↔ a = b :=
  (beq_iff_aux (sizeOf a)).1 a b le_rfl

theorem beqV_refl (a : Value) : beqV a a = true := (beqV_iff a a).mpr rfl

theorem beqV_eq_false (a b : Value) (h : a ≠ b) : beqV a b = false := by
  cases hb : beqV a b
  · rfl
  · exact absurd ((beqV_iff a b).mp hb) h

theorem length_be (w n : Nat) : (be w n).length = w := by
  induction w generalizing n with
  | zero => rfl
  | succ w ih => simp [be, ih]

theorem beVal_aux (bs : List Nat) (a : Nat) :
    bs.foldl (fun x b => x * 256 + b) a = a * 256 ^ bs.length + bs.foldl (fun x b => x * 256 + b) 0 := by
  induction bs generalizing a with
  | nil => simp
  | cons b bt ih =>
    simp only [List.foldl_cons, List.length_cons, Nat.zero_mul, Nat.zero_add]
    rw [ih (a * 256 + b), ih b]
    ring

theorem beVal_be (w n : Nat) : beVal (be w n) = n % 2 ^ (8 * w) := by
  induction w generalizing n with
  | zero => simp [be, beVal, Nat.mod_one]
  | succ w ih =>
    have h0 := ih n
    simp only [beVal] at h0
    simp only [be, beVal, List.foldl_cons, Nat.zero_mul, Nat.zero_add]
    rw [beVal_aux, length_be, h0]
    have h256 : (256 : Nat) ^ w = 2 ^ (8 * w) := by
      rw [show (256 : Nat) = 2 ^ 8 from rfl, ← Nat.pow_mul]
    have hsplit : (2 : Nat) ^ (8 * (w + 1)) = 2 ^ (8 * w) * 256 := by
      rw [Nat.mul_add, Nat.pow_add]
    rw [h256, hsplit, Nat.mod_mul]
    ring

theorem drop_cons_facts {d : List Nat} {o : Nat} {x : Nat} {t : List Nat}
    (h : d.drop o = x :: t) : d.getD o 0 = x ∧ o < d.length ∧ d.drop (o + 1) = t := by
  induction d generalizing o with
  | nil => simp at h
  | cons a d ih =>
    cases o with
    | zero =>
      simp only [List.drop_zero] at h
      cases h
      simp
    | succ o =>
      simp only [List.drop_succ_cons] at h
      obtain ⟨h1, h2, h3⟩ := ih h
      refine ⟨h1, by simpa using Nat.succ_lt_succ h2, ?_⟩
      simpa using h3

theorem drop_seg_facts {d : List Nat} {o : Nat} {s r : List Nat}
    (ho : o ≤ d.length) (h : d.drop o = s ++ r) :
    (d.drop o).take s.length = s ∧ d.drop (o + s.length) = r ∧ o + s.length ≤ d.length := by
  have hlen : (d.drop o).length = d.length - o := List.length_drop o d
  rw [h, List.length_append] at hlen
  refine ⟨by rw [h, List.take_left], ?_, by omega⟩
  rw [← List.drop_drop s.length o d, h, List.drop_left]

theorem fixstr_bits : ∀ l : Fin 32,
    (160 ||| (l : Nat)) = 160 + (l : Nat) ∧ ((160 + (l : Nat)) &&& 31) = (l : Nat) := by decide

theorem fix16_bits : ∀ l : Fin 16,
    (144 ||| (l : Nat)) = 144 + (l : Nat) ∧ (128 ||| (l : Nat)) = 128 + (l : Nat) ∧
    ((144 + (l : Nat)) &&& 15) = (l : Nat) ∧ ((128 + (l : Nat)) &&& 15) = (l : Nat) := by decide

theorem lor160 {l : Nat} (h : l ≤ 31) : (160 ||| l) = 160 + l := (fixstr_bits ⟨l, by omega⟩).1

theorem land31 {l : Nat} (h : l ≤ 31) : ((160 + l) &&& 31) = l := (fixstr_bits ⟨l, by omega⟩).2

theorem lor144 {l : Nat} (h : l ≤ 15) : (144 ||| l) = 144 + l := (fix16_bits ⟨l, by omega⟩).1

theorem lor128 {l : Nat} (h : l ≤ 15) : (128 ||| l) = 128 + l := (fix16_bits ⟨l, by omega⟩).2.1

theorem land15a {l : Nat} (h : l ≤ 15) : ((144 + l) &&& 15) = l := (fix16_bits ⟨l, by omega⟩).2.2.1

theorem land15m {l : Nat} (h : l ≤ 15) : ((128 + l) &&& 15) = l := (fix16_bits ⟨l, by omega⟩).2.2.2

theorem unpackValue_succ (fuel : Nat) (d : List Nat) (o : Nat) :
    unpackValue (fuel + 1) d o = if o ≥ d.length then .error .truncatedInput
      else unpackStep (unpackValue fuel) d (o + 1) (d.getD o 0) := rfl

theorem step_fixint (next : List Nat → Nat → Except DecErr (Value × Nat)) (d : List Nat)
    (o m : Nat) (h : m ≤ 127) : unpackStep next d o m = .ok (.int m, o) := by
  unfold unpackStep
  rw [if_pos h]

theorem step_fixmap (next : List Nat → Nat → Except DecErr (Value × Nat)) (d : List Nat)
    (o m : Nat) (h1 : 128 ≤ m) (h2 : m ≤ 143) :
    unpackStep next d o m =
      (match unpackMap next (m &&& 15) d o [] with
       | .error e => .error e
       | .ok (kvs, o1) => .ok (.dict kvs, o1)) := by
  unfold unpackStep
  rw [if_neg (by omega), if_pos ⟨h1, h2⟩]

theorem step_fixarray (next : List Nat → Nat → Except DecErr (Value × Nat)) (d : List Nat)
    (o m : Nat) (h1 : 144 ≤ m) (h2 : m ≤ 159) :
    unpackStep next d o m =
      (match unpackArray next (m &&& 15) d o with
       | .error e => .error e
       | .ok (vs, o1) => .ok (.list vs, o1)) := by
  unfold unpackStep
  rw [if_neg (by omega), if_neg (by omega), if_pos ⟨h1, h2⟩]

theorem step_fixstr (next : List Nat → Nat → Except DecErr (Value × Nat)) (d : List Nat)
    (o m : Nat) (h1 : 160 ≤ m) (h2 : m ≤ 191) :
    unpackStep next d o m = unpackStr d o (m &&& 31) := by
  unfold unpackStep
  rw [if_neg (by omega), if_neg (by omega), if_neg (by omega), if_pos ⟨h1, h2⟩]

theorem step_negfix (next : List Nat → Nat → Except DecErr (Value × Nat)) (d : List Nat)
    (o m : Nat) (h : 224 ≤ m) : unpackStep next d o m = .ok (.int ((m : Int) - 256), o) := by
  unfold unpackStep
  rw [if_neg (by omega), if_neg (by omega), if_neg (by omega), if_neg (by omega), if_pos h]

theorem step_nil (next : List Nat → Nat → Except DecErr (Value × Nat)) (d : List Nat) (o : Nat) :
    unpackStep next d o 192 = .ok (.nil, o) := by
  unfold unpackStep
  norm_num

theorem step_false (next : List Nat → Nat → Except DecErr (Value × Nat)) (d : List Nat) (o : Nat) :
    unpackStep next d o 194 = .ok (.bool false, o) := by
  unfold unpackStep
  norm_num

theorem step_true (next : List Nat → Nat → Except DecErr (Value × Nat)) (d : List Nat) (o : Nat) :
    unpackStep next d o 195 = .ok (.bool true, o) := by
  unfold unpackStep
  norm_num

theorem step_bin8 (next : List Nat → Nat → Except DecErr (Value × Nat)) (d : List Nat) (o : Nat) :
    unpackStep next d o 196 = (if o < d.length then
        .ok (.bytes ((d.drop (o + 1)).take (d.getD o 0)), o + 1 + d.getD o 0)
      else .error .indexError) := by
  unfold unpackStep
  norm_num

theorem step_bin16 (next : List Nat → Nat → Except DecErr (Value × Nat)) (d : List Nat) (o : Nat) :
    unpackStep next d o 197 = (if o + 2 ≤ d.length then
        .ok (.bytes ((d.drop (o + 2)).take (beVal ((d.drop o).take 2))),
             o + 2 + beVal ((d.drop o).take 2))
      else .error .structError) := by
  unfold unpackStep
  norm_num

theorem step_bin32 (next : List Nat → Nat → Except DecErr (Value × Nat)) (d : List Nat) (o : Nat) :
    unpackStep next d o 198 = (if o + 4 ≤ d.length then
        .ok (.bytes ((d.drop (o + 4)).take (beVal ((d.drop o).take 4))),
             o + 4 + beVal ((d.drop o).take 4))
      else .error .structError) := by
  unfold unpackStep
  norm_num

theorem step_float64 (next : List Nat → Nat → Except DecErr (Value × Nat)) (d : List Nat) (o : Nat) :
    unpackStep next d o 203 = (if o + 8 ≤ d.length then
        .ok (.float (beVal ((d.drop o).take 8)), o + 8)
      else .error .structError) := by
  unfold unpackStep
  norm_num

theorem step_uint8 (next : List Nat → Nat → Except DecErr (Value × Nat)) (d : List Nat) (o : Nat) :
    unpackStep next d o 204 = (if o < d.length then .ok (.int (d.getD o 0), o + 1)
      else .error .indexError) := by
  unfold unpackStep
  norm_num

theorem step_uint16 (next : List Nat → Nat → Except DecErr (Value × Nat)) (d : List Nat) (o : Nat) :
    unpackStep next d o 205 = (if o + 2 ≤ d.length then
        .ok (.int (beVal ((d.drop o).take 2)), o + 2)
      else .error .structError) := by
  unfold unpackStep
  norm_num

theorem step_uint32 (next : List Nat → Nat → Except DecErr (Value × Nat)) (d : List Nat) (o : Nat) :
    unpackStep next d o 206 = (if o + 4 ≤ d.length then
        .ok (.int (beVal ((d.drop o).take 4)), o + 4)
      else .error .structError) := by
  unfold unpackStep
  norm_num

theorem step_uint64 (next : List Nat → Nat → Except DecErr (Value × Nat)) (d : List Nat) (o : Nat) :
    unpackStep next d o 207 = (if o + 8 ≤ d.length then
        .ok (.int (beVal ((d.drop o).take 8)), o + 8)
      else .error .structError) := by
  unfold unpackStep
  norm_num

theorem step_int8 (next : List Nat → Nat → Except DecErr (Value × Nat)) (d : List Nat) (o : Nat) :
    unpackStep next d o 208 = (if o + 1 ≤ d.length then
        .ok (.int (toSigned 1 (beVal ((d.drop o).take 1))), o + 1)
      else .error .structError) := by
  unfold unpackStep
  norm_num

theorem step_int16 (next : List Nat → Nat → Except DecErr (Value × Nat)) (d : List Nat) (o : Nat) :
    unpackStep next d o 209 = (if o + 2 ≤ d.length then
        .ok (.int (toSigned 2 (beVal ((d.drop o).take 2))), o + 2)
      else .error .structError) := by
  unfold unpackStep
  norm_num

theorem step_int32 (next : List Nat → Nat → Except DecErr (Value × Nat)) (d : List Nat) (o : Nat) :
    unpackStep next d o 210 = (if o + 4 ≤ d.length then
        .ok (.int (toSigned 4 (beVal ((d.drop o).take 4))), o + 4)
      else .error .structError) := by
  unfold unpackStep
  norm_num

theorem step_int64 (next : List Nat → Nat → Except DecErr (Value × Nat)) (d : List Nat) (o : Nat) :
    unpackStep next d o 211 = (if o + 8 ≤ d.length then
        .ok (.int (toSigned 8 (beVal ((d.drop o).take 8))), o + 8)
      else .error .structError) := by
  unfold unpackStep
  norm_num

theorem step_str8 (next : List Nat → Nat → Except DecErr (Value × Nat)) (d : List Nat) (o : Nat) :
    unpackStep next d o 217 = (if o < d.length then unpackStr d (o + 1) (d.getD o 0)
      else .error .indexError) := by
  unfold unpackStep
  norm_num

theorem step_str16 (next : List Nat → Nat → Except DecErr (Value × Nat)) (d : List Nat) (o : Nat) :
    unpackStep next d o 218 = (if o + 2 ≤ d.length then
        unpackStr d (o + 2) (beVal ((d.drop o).take 2))
      else .error .structError) := by
  unfold unpackStep
  norm_num

theorem step_str32 (next : List Nat → Nat → Except DecErr (Value × Nat)) (d : List Nat) (o : Nat) :
    unpackStep next d o 219 = (if o + 4 ≤ d.length then
        unpackStr d (o + 4) (beVal ((d.drop o).take 4))
      else .error .structError) := by
  unfold unpackStep
  norm_num

theorem step_arr16 (next : List Nat → Nat → Except DecErr (Value × Nat)) (d : List Nat) (o : Nat) :
    unpackStep next d o 220 = (if o + 2 ≤ d.length then
        match unpackArray next (beVal ((d.drop o).take 2)) d (o + 2) with
        | .error e => .error e
        | .ok (vs, o1) => .ok (.list vs, o1)
      else .error .structError) := by
  unfold unpackStep
  norm_num

theorem step_arr32 (next : List Nat → Nat → Except DecErr (Value × Nat)) (d : List Nat) (o : Nat) :
    unpackStep next d o 221 = (if o + 4 ≤ d.length then
        match unpackArray next (beVal ((d.drop o).take 4)) d (o + 4) with
        | .error e => .error e
        | .ok (vs, o1) => .ok (.list vs, o1)
      else .error .structError) := by
  unfold unpackStep
  norm_num

theorem step_map16 (next : List Nat → Nat → Except DecErr (Value × Nat)) (d : List Nat) (o : Nat) :
    unpackStep next d o 222 = (if o + 2 ≤ d.length then
        match unpackMap next (beVal ((d.drop o).take 2)) d (o + 2) [] with
        | .error e => .error e
        | .ok (kvs, o1) => .ok (.dict kvs, o1)
      else .error .structError) := by
  unfold unpackStep
  norm_num

theorem step_map32 (next : List Nat → Nat → Except DecErr (Value × Nat)) (d : List Nat) (o : Nat) :
    unpackStep next d o 223 = (if o + 4 ≤ d.length then
        match unpackMap next (beVal ((d.drop o).take 4)) d (o + 4) [] with
        | .error e => .error e
        | .ok (kvs, o1) => .ok (.dict kvs, o1)
      else .error .structError) := by
  unfold unpackStep
  norm_num

theorem decode_unsigned (w : Nat) (n : Int) (h1 : 0 ≤ n) (h2 : n < 2 ^ (8 * w)) :
    ((beVal (be w n.toNat) : Nat) : Int) = n := by
  have hc : (((2 : Nat) ^ (8 * w) : Nat) : Int) = 2 ^ (8 * w) := by push_cast; rfl
  rw [beVal_be]
  have hlt : n.toNat < 2 ^ (8 * w) := by omega
  rw [Nat.mod_eq_of_lt hlt]
  omega

theorem decode_signed (w : Nat) (n : Int) (hw : 1 ≤ w)
    (h1 : -(2 ^ (8 * w - 1)) ≤ n) (h2 : n < 0) :
    toSigned w (beVal (be w (n + 2 ^ (8 * w)).toNat)) = n := by
  have hpn : (2 : Nat) ^ (8 * w - 1) * 2 = 2 ^ (8 * w) := by
    rw [← pow_succ]
    congr 1
    omega
  have hc : (((2 : Nat) ^ (8 * w) : Nat) : Int) = 2 ^ (8 * w) := by push_cast; rfl
  have hc2 : (((2 : Nat) ^ (8 * w - 1) : Nat) : Int) = 2 ^ (8 * w - 1) := by push_cast; rfl
  rw [beVal_be]
  have hlt : (n + 2 ^ (8 * w)).toNat < 2 ^ (8 * w) := by omega
  rw [Nat.mod_eq_of_lt hlt]
  unfold toSigned
  rw [if_neg (by omega)]
  omega

set_option maxHeartbeats 1000000 in
theorem packInt_ok (n : Int) (h1 : -9223372036854775808 ≤ n) (h2 : n ≤ 18446744073709551615) :
    ∃ bs, packInt n = .ok bs := by
  unfold packInt
  split_ifs <;> first | exact ⟨_, rfl⟩ | (exfalso; omega)

theorem packStr_ok (s : List Nat) (h : s.length < 4294967296) :
    ∃ bs, packStr s = .ok bs := by
  unfold packStr
  split_ifs <;> first | exact ⟨_, rfl⟩ | (exfalso; omega)

theorem packBytes_ok (b : List Nat) (h : b.length < 4294967296) :
    ∃ bs, packBytes b = .ok bs := by
  unfold packBytes
  split_ifs <;> first | exact ⟨_, rfl⟩ | (exfalso; omega)

theorem arrayHeader_ok (n : Nat) (h : n < 4294967296) :
    ∃ bs, arrayHeader n = .ok bs := by
  unfold arrayHeader
  split_ifs <;> first | exact ⟨_, rfl⟩ | (exfalso; omega)

theorem mapHeader_ok (n : Nat) (h : n < 4294967296) :
    ∃ bs, mapHeader n = .ok bs := by
  unfold mapHeader
  split_ifs <;> first | exact ⟨_, rfl⟩ | (exfalso; omega)

theorem sizeOf_value_pos (v : Value) : 1 ≤ sizeOf v := by
  cases v <;> simp <;> omega

theorem pack_ok_aux : ∀ N,
    (∀ v : Value, sizeOf v ≤ N → wfWidths v = true → hasUnsupported v = false →
      ∃ bs, packValue v = .ok bs) ∧
    (∀ xs : List Value, sizeOf xs ≤ N → wfWidthsL xs = true → hasUnsupportedL xs = false →
      ∃ bs, packSeq xs = .ok bs) ∧
    (∀ kvs : List (Value × Value), sizeOf kvs ≤ N → wfWidthsP kvs = true →
      hasUnsupportedP kvs = false → ∃ bs, packPairs kvs = .ok bs) := by
  intro N
  induction N with
  | zero =>
    refine ⟨?_, ?_, ?_⟩ <;> intro v h <;> exfalso <;> cases v <;> simp at h <;> omega
  | succ N ih =>
    obtain ⟨ihV, ihL, ihP⟩ := ih
    refine ⟨?_, ?_, ?_⟩
    · intro v hsz hw hu
      cases v with
      | nil => exact ⟨_, rfl⟩
      | bool b => cases b <;> exact ⟨_, rfl⟩
      | int n =>
        simp only [wfWidths, Bool.and_eq_true, decide_eq_true_eq] at hw
        exact packInt_ok n hw.1 hw.2
      | float bits => exact ⟨_, rfl⟩
      | str s =>
        simp only [wfWidths, decide_eq_true_eq] at hw
        obtain ⟨bs, hbs⟩ := packStr_ok s hw
        exact ⟨bs, by simp [packValue, hbs]⟩
      | bytes b =>
        simp only [wfWidths, decide_eq_true_eq] at hw
        obtain ⟨bs, hbs⟩ := packBytes_ok b hw
        exact ⟨bs, by simp [packValue, hbs]⟩
      | list xs =>
        simp only [wfWidths, Bool.and_eq_true, decide_eq_true_eq] at hw
        simp only [hasUnsupported] at hu
        obtain ⟨hd, hhd⟩ := arrayHeader_ok xs.length hw.1
        obtain ⟨body, hbody⟩ := ihL xs (by simp at hsz; omega) hw.2 hu
        exact ⟨hd ++ body, by simp [packValue, hhd, hbody]⟩
      | dict kvs =>
        simp only [wfWidths, Bool.and_eq_true, decide_eq_true_eq] at hw
        simp only [hasUnsupported] at hu
        obtain ⟨hd, hhd⟩ := mapHeader_ok kvs.length hw.1
        obtain ⟨body, hbody⟩ := ihP kvs (by simp at hsz; omega) hw.2 hu
        exact ⟨hd ++ body, by simp [packValue, hhd, hbody]⟩
      | record name fields => simp [hasUnsupported] at hu
      | other ty => simp [hasUnsupported] at hu
    · intro xs hsz hw hu
      cases xs with
      | nil => exact ⟨_, rfl⟩
      | cons x t =>
        simp only [wfWidthsL, Bool.and_eq_true] at hw
        simp only [hasUnsupportedL, Bool.or_eq_false_iff] at hu
        obtain ⟨xb, hxb⟩ := ihV x (by simp at hsz; omega) hw.1 hu.1
        obtain ⟨tb, htb⟩ := ihL t (by simp at hsz; omega) hw.2 hu.2
        exact ⟨xb ++ tb, by simp [packSeq, hxb, htb]⟩
    · intro kvs hsz hw hu
      cases kvs with
      | nil => exact ⟨_, rfl⟩
      | cons p t =>
        obtain ⟨k, v⟩ := p
        simp only [wfWidthsP, Bool.and_eq_true] at hw
        simp only [hasUnsupportedP, Bool.or_eq_false_iff] at hu
        obtain ⟨⟨hwk, hwv⟩, hwt⟩ := hw
        obtain ⟨⟨huk, huv⟩, hut⟩ := hu
        obtain ⟨kb, hkb⟩ := ihV k (by simp at hsz; omega) hwk huk
        obtain ⟨vb, hvb⟩ := ihV v (by simp at hsz; omega) hwv huv
        obtain ⟨tb, htb⟩ := ihP t (by simp at hsz; omega) hwt hut
        exact ⟨kb ++ (vb ++ tb), by simp [packPairs, hkb, hvb, htb]⟩

theorem wf_imp_aux : ∀ N,
    (∀ v : Value, sizeOf v ≤ N → wfVal v = true →
      wfWidths v = true ∧ hasUnsupported v = false) ∧
    (∀ xs : List Value, sizeOf xs ≤ N → wfList xs = true →
      wfWidthsL xs = true ∧ hasUnsupportedL xs = false) ∧
    (∀ kvs : List (Value × Value), sizeOf kvs ≤ N → wfPairs kvs = true →
      wfWidthsP kvs = true ∧ hasUnsupportedP kvs = false) := by
  intro N
  induction N with
  | zero =>
    refine ⟨?_, ?_, ?_⟩ <;> intro v h <;> exfalso <;> cases v <;> simp at h <;> omega
  | succ N ih =>
    obtain ⟨ihV, ihL, ihP⟩ := ih
    refine ⟨?_, ?_, ?_⟩
    · intro v hsz hwf
      cases v with
      | nil => exact ⟨rfl, rfl⟩
      | bool b => exact ⟨rfl, rfl⟩
      | int n => exact ⟨hwf, rfl⟩
      | float bits => exact ⟨rfl, rfl⟩
      | str s =>
        simp only [wfVal, Bool.and_eq_true, decide_eq_true_eq] at hwf
        simp only [wfWidths, decide_eq_true_eq, hasUnsupported]
        exact ⟨hwf.1, trivial⟩
      | bytes b =>
        simp only [wfVal, Bool.and_eq_true, decide_eq_true_eq] at hwf
        simp only [wfWidths, decide_eq_true_eq, hasUnsupported]
        exact ⟨hwf.1, trivial⟩
      | list xs =>
        simp only [wfVal, Bool.and_eq_true, decide_eq_true_eq] at hwf
        have h := ihL xs (by simp at hsz; omega) hwf.2
        simp only [wfWidths, Bool.and_eq_true, decide_eq_true_eq, hasUnsupported]
        exact ⟨⟨hwf.1, h.1⟩, h.2⟩
      | dict kvs =>
        simp only [wfVal, Bool.and_eq_true, decide_eq_true_eq] at hwf
        have h := ihP kvs (by simp at hsz; omega) hwf.2
        simp only [wfWidths, Bool.and_eq_true, decide_eq_true_eq, hasUnsupported]
        exact ⟨⟨hwf.1, h.1⟩, h.2⟩
      | record name fields => simp [wfVal] at hwf
      | other ty => simp [wfVal] at hwf
    · intro xs hsz hwf
      cases xs with
      | nil => exact ⟨rfl, rfl⟩
      | cons x t =>
        simp only [wfList, Bool.and_eq_true] at hwf
        have h1 := ihV x (by simp at hsz; omega) hwf.1
        have h2 := ihL t (by simp at hsz; omega) hwf.2
        simp only [wfWidthsL, hasUnsupportedL, Bool.and_eq_true, Bool.or_eq_false_iff]
        exact ⟨⟨h1.1, h2.1⟩, h1.2, h2.2⟩
    · intro kvs hsz hwf
      cases kvs with
      | nil => exact ⟨rfl, rfl⟩
      | cons p t =>
        obtain ⟨k, v⟩ := p
        simp only [wfPairs, Bool.and_eq_true] at hwf
        obtain ⟨⟨⟨⟨hk, hv⟩, hh⟩, hm⟩, ht⟩ := hwf
        have h1 := ihV k (by simp at hsz; omega) hk
        have h2 := ihV v (by simp at hsz; omega) hv
        have h3 := ihP t (by simp at hsz; omega) ht
        simp only [wfWidthsP, hasUnsupportedP, Bool.and_eq_true, Bool.or_eq_false_iff]
        exact ⟨⟨⟨h1.1, h2.1⟩, h3.1⟩, ⟨h1.2, h2.2⟩, h3.2⟩

theorem wfVal_imp (v : Value) (h : wfVal v = true) :
    wfWidths v = true ∧ hasUnsupported v = false :=
  (wf_imp_aux (sizeOf v)).1 v le_rfl h

theorem pack_ok (v : Value) (hw : wfWidths v = true) (hu : hasUnsupported v = false) :
    ∃ bs, packValue v = .ok bs :=
  (pack_ok_aux (sizeOf v)).1 v le_rfl hw hu

theorem beqV_symmEq (a b : Value) : beqV a b = beqV b a := by
  by_cases h : a = b
  · subst h
    rfl
  · rw [beqV_eq_false a b h, beqV_eq_false b a (fun hb => h hb.symm)]

theorem keyMem_append (k : Value) (a b : List (Value × Value)) :
    keyMem k (a ++ b) = (keyMem k a || keyMem k b) := by
  simp [keyMem, List.any_append]

theorem dictSet_fresh (acc : List (Value × Value)) (k v : Value)
    (h : keyMem k acc = false) : dictSet acc k v = acc ++ [(k, v)] := by
  induction acc with
  | nil => rfl
  | cons p t ih =>
    obtain ⟨k0, v0⟩ := p
    simp only [keyMem, List.any_cons, Bool.or_eq_false_iff] at h
    have h2 : keyMem k t = false := h.2
    simp [dictSet, h.1, ih h2]

theorem foldl_dictSet_eq (kvs : List (Value × Value)) :
    ∀ acc, wfPairs kvs = true → (∀ p ∈ kvs, keyMem p.1 acc = false) →
    List.foldl (fun a p => dictSet a p.1 p.2) acc kvs = acc ++ kvs := by
  induction kvs with
  | nil => intro acc _ _; simp
  | cons p t ih =>
    intro acc hwf hfresh
    obtain ⟨k, v⟩ := p
    simp only [wfPairs, Bool.and_eq_true] at hwf
    obtain ⟨⟨⟨⟨hk, hv⟩, hh⟩, hm⟩, ht⟩ := hwf
    simp only [List.foldl_cons]
    rw [dictSet_fresh acc k v (hfresh (k, v) (by simp))]
    rw [ih (acc ++ [(k, v)]) ht ?_]
    · simp
    · intro q hq
      rw [keyMem_append]
      simp only [Bool.or_eq_false_iff]
      refine ⟨hfresh q (by simp [hq]), ?_⟩
      have hmt : keyMem k t = false := by simpa using hm
      have hq1 : beqV q.1 k = false := by
        by_contra hx
        simp only [Bool.not_eq_false] at hx
        have hkt : keyMem k t = true := by
          simp only [keyMem, List.any_eq_true]
          exact ⟨q, hq, hx⟩
        rw [hkt] at hmt
        cases hmt
      simp only [keyMem, List.any_cons, List.any_nil, Bool.or_false]
      rw [beqV_symmEq]
      exact hq1

theorem dictLookup_dictSet (acc : List (Value × Value)) (k v k2 : Value) :
    dictLookup (dictSet acc k v) k2 =
      if beqV k k2 then some v else dictLookup acc k2 := by
  induction acc with
  | nil => rfl
  | cons p t ih =>
    obtain ⟨k0, v0⟩ := p
    by_cases h0 : beqV k0 k = true
    · have hk0 : k0 = k := (beqV_iff k0 k).mp h0
      subst hk0
      simp only [dictSet, if_pos h0, dictLookup]
      by_cases h2 : beqV k0 k2 = true <;> simp [h2]
    · simp only [Bool.not_eq_true] at h0
      simp only [dictSet, h0, Bool.false_eq_true, if_false, dictLookup]
      by_cases h2 : beqV k0 k2 = true
      · have hk02 : k0 = k2 := (beqV_iff k0 k2).mp h2
        subst hk02
        have hkk2 : beqV k k0 = false := by
          rw [beqV_symmEq]
          exact h0
        simp [h2, hkk2]
      · simp only [Bool.not_eq_true] at h2
        simp [h2, ih]

theorem lookup_foldl (kvs : List (Value × Value)) :
    ∀ (acc : List (Value × Value)) (k : Value),
      dictLookup (List.foldl (fun a p => dictSet a p.1 p.2) acc kvs) k =
        (match lastBinding kvs k with
         | some v => some v
         | none => dictLookup acc k) := by
  induction kvs with
  | nil => intro acc k; rfl
  | cons p t ih =>
    intro acc k
    obtain ⟨k0, v0⟩ := p
    simp only [List.foldl_cons, lastBinding]
    rw [ih (dictSet acc k0 v0) k]
    cases hlb : lastBinding t k with
    | some v => rfl
    | none =>
      simp only []
      rw [dictLookup_dictSet]
      by_cases h : beqV k0 k = true <;> simp [h]

theorem wfPairs_lookup (kvs : List (Value × Value)) (k v : Value)
    (hwf : wfPairs kvs = true) (hmem : (k, v) ∈ kvs) : dictLookup kvs k = some v := by
  induction kvs with
  | nil => cases hmem
  | cons p t ih =>
    obtain ⟨k0, v0⟩ := p
    simp only [wfPairs, Bool.and_eq_true] at hwf
    obtain ⟨⟨⟨⟨hk, hv⟩, hh⟩, hm⟩, ht⟩ := hwf
    rcases List.mem_cons.mp hmem with heq | hmem2
    · cases heq
      simp [dictLookup, beqV_refl]
    · have hne : beqV k0 k = false := by
        have hmt : keyMem k0 t = false := by simpa using hm
        by_contra hx
        simp only [Bool.not_eq_false] at hx
        have hk0k : k0 = k := (beqV_iff k0 k).mp hx
        subst hk0k
        have : keyMem k0 t = true := by
          simp only [keyMem, List.any_eq_true]
          exact ⟨(k0, v), hmem2, beqV_refl k0⟩
        rw [this] at hmt
        cases hmt
      simp only [dictLookup, hne, Bool.false_eq_true, if_false]
      exact ih ht hmem2

theorem header_nonempty {n : Nat} {bs : List Nat} :
    arrayHeader n = .ok bs ∨ mapHeader n = .ok bs → 1 ≤ bs.length := by
  intro h
  rcases h with h | h <;>
    (first
      | (unfold arrayHeader at h; split_ifs at h <;> cases h <;> simp [length_be])
      | (unfold mapHeader at h; split_ifs at h <;> cases h <;> simp [length_be]))

set_option maxHeartbeats 1000000 in
theorem pack_nonempty (v : Value) (bs : List Nat) (h : packValue v = .ok bs) :
    1 ≤ bs.length := by
  cases v with
  | nil => cases h; simp
  | bool b => cases b <;> cases h <;> simp
  | int n =>
    simp only [packValue] at h
    unfold packInt at h
    split_ifs at h <;> cases h <;> simp [length_be]
  | float bits => cases h; simp [packFloat]
  | str s =>
    simp only [packValue] at h
    unfold packStr at h
    split_ifs at h <;> cases h <;> simp [length_be]
  | bytes b =>
    simp only [packValue] at h
    unfold packBytes at h
    split_ifs at h <;> cases h <;> simp [length_be]
  | list xs =>
    simp only [packValue] at h
    cases hh : arrayHeader xs.length with
    | error e => rw [hh] at h; cases h
    | ok hd =>
      rw [hh] at h
      cases hb : packSeq xs with
      | error e => rw [hb] at h; cases h
      | ok body =>
        rw [hb] at h
        cases h
        have := header_nonempty (Or.inl hh)
        simp only [List.length_append]
        omega
  | dict kvs =>
    simp only [packValue] at h
    cases hh : mapHeader kvs.length with
    | error e => rw [hh] at h; cases h
    | ok hd =>
      rw [hh] at h
      cases hb : packPairs kvs with
      | error e => rw [hb] at h; cases h
      | ok body =>
        rw [hb] at h
        cases h
        have := header_nonempty (Or.inr hh)
        simp only [List.length_append]
        omega
  | record name fields => cases h
  | other ty => cases h

theorem drop_append_bound {d s r : List Nat} {o : Nat}
    (h : d.drop o = s ++ r) (hs : 1 ≤ s.length) : o ≤ d.length := by
  by_contra hc
  push_neg at hc
  rw [List.drop_eq_nil_of_le (by omega)] at h
  have hlen := congrArg List.length h
  simp at hlen
  omega

theorem seqLoop_ok (f : Nat) (d : List Nat) :
    ∀ (xs : List Value) (body : List Nat) (o : Nat) (rest : List Nat),
      (∀ x ∈ xs, RT x) → wfList xs = true → packSeq xs = .ok body →
      body.length ≤ f → d.drop o = body ++ rest →
      unpackArray (unpackValue f) xs.length d o = .ok (xs, o + body.length) := by
  intro xs
  induction xs with
  | nil =>
    intro body o rest _ _ hpack _ _
    simp only [packSeq] at hpack
    cases hpack
    simp [unpackArray]
  | cons x t ih =>
    intro body o rest hrt hwf hpack hfuel hdrop
    simp only [packSeq] at hpack
    cases hx : packValue x with
    | error e => rw [hx] at hpack; cases hpack
    | ok xb =>
      rw [hx] at hpack
      cases ht : packSeq t with
      | error e => rw [ht] at hpack; cases hpack
      | ok tb =>
        rw [ht] at hpack
        cases hpack
        simp only [wfList, Bool.and_eq_true] at hwf
        have hdrop1 : d.drop o = xb ++ (tb ++ rest) := by
          rw [hdrop, List.append_assoc]
        have hlen : (xb ++ tb).length = xb.length + tb.length := List.length_append xb tb
        have hx1 : unpackValue f d o = .ok (x, o + xb.length) :=
          hrt x (by simp) hwf.1 xb hx f d o (tb ++ rest) (by omega) hdrop1
        have hxb1 : 1 ≤ xb.length := pack_nonempty x xb hx
        have ho : o ≤ d.length := drop_append_bound hdrop1 hxb1
        obtain ⟨_, hdrop2, _⟩ := drop_seg_facts ho hdrop1
        have hrec := ih tb (o + xb.length) rest (fun y hy => hrt y (by simp [hy]))
          hwf.2 ht (by omega) hdrop2
        simp only [List.length_cons, unpackArray, hx1, hrec]
        rw [hlen, Nat.add_assoc]

theorem pairsLoop_ok (f : Nat) (d : List Nat) :
    ∀ (kvs : List (Value × Value)) (body : List Nat) (o : Nat) (rest : List Nat)
      (acc : List (Value × Value)),
      (∀ p ∈ kvs, RT p.1 ∧ RT p.2) →
      (∀ p ∈ kvs, wfVal p.1 = true ∧ wfVal p.2 = true ∧ hashableKey p.1 = true) →
      packPairs kvs = .ok body → body.length ≤ f → d.drop o = body ++ rest →
      unpackMap (unpackValue f) kvs.length d o acc =
        .ok (List.foldl (fun a p => dictSet a p.1 p.2) acc kvs, o + body.length) := by
  intro kvs
  induction kvs with
  | nil =>
    intro body o rest acc _ _ hpack _ _
    simp only [packPairs] at hpack
    cases hpack
    simp [unpackMap]
  | cons p t ih =>
    intro body o rest acc hrt hwf hpack hfuel hdrop
    obtain ⟨k, v⟩ := p
    simp only [packPairs] at hpack
    cases hk : packValue k with
    | error e => rw [hk] at hpack; cases hpack
    | ok kb =>
      rw [hk] at hpack
      cases hv : packValue v with
      | error e => rw [hv] at hpack; cases hpack
      | ok vb =>
        rw [hv] at hpack
        cases ht : packPairs t with
        | error e => rw [ht] at hpack; cases hpack
        | ok tb =>
          rw [ht] at hpack
          cases hpack
          have hwfp := hwf (k, v) (by simp)
          have hrtp := hrt (k, v) (by simp)
          have hlen : (kb ++ (vb ++ tb)).length = kb.length + (vb.length + tb.length) := by
            simp [List.length_append]
          have hdrop1 : d.drop o = kb ++ (vb ++ (tb ++ rest)) := by
            rw [hdrop]
            simp [List.append_assoc]
          have hk1 : unpackValue f d o = .ok (k, o + kb.length) :=
            hrtp.1 hwfp.1 kb hk f d o (vb ++ (tb ++ rest)) (by omega) hdrop1
          have hkb1 : 1 ≤ kb.length := pack_nonempty k kb hk
          have ho : o ≤ d.length := drop_append_bound hdrop1 hkb1
          obtain ⟨_, hdrop2, _⟩ := drop_seg_facts ho hdrop1
          have hv1 : unpackValue f d (o + kb.length) = .ok (v, o + kb.length + vb.length) :=
            hrtp.2 hwfp.2.1 vb hv f d (o + kb.length) (tb ++ rest) (by omega) hdrop2
          have hvb1 : 1 ≤ vb.length := pack_nonempty v vb hv
          have ho2 : o + kb.length ≤ d.length := drop_append_bound hdrop2 hvb1
          obtain ⟨_, hdrop3, _⟩ := drop_seg_facts ho2 hdrop2
          have hrec := ih tb (o + kb.length + vb.length) rest (dictSet acc k v)
            (fun q hq => hrt q (by simp [hq])) (fun q hq => hwf q (by simp [hq]))
            ht (by omega) hdrop3
          simp only [List.length_cons, unpackMap, hk1, hv1, hwfp.2.2, if_true, List.foldl_cons]
          rw [hrec, hlen]
          simp [Nat.add_assoc]

theorem rt_nil : RT .nil := by
  intro _ enc hpack fuel d o rest hfuel hdrop
  simp only [packValue] at hpack
  cases hpack
  obtain ⟨hget, ho, _⟩ := drop_cons_facts (show d.drop o = 192 :: rest by simpa using hdrop)
  obtain ⟨f, rfl⟩ : ∃ f, fuel = f + 1 := ⟨fuel - 1, by simp at hfuel; omega⟩
  rw [unpackValue_succ, if_neg (by omega), hget, step_nil]
  rfl

theorem rt_bool (b : Bool) : RT (.bool b) := by
  intro _ enc hpack fuel d o rest hfuel hdrop
  cases b <;> simp only [packValue] at hpack <;> cases hpack
  · obtain ⟨hget, ho, _⟩ := drop_cons_facts (show d.drop o = 194 :: rest by simpa using hdrop)
    obtain ⟨f, rfl⟩ : ∃ f, fuel = f + 1 := ⟨fuel - 1, by simp at hfuel; omega⟩
    rw [unpackValue_succ, if_neg (by omega), hget, step_false]
    rfl
  · obtain ⟨hget, ho, _⟩ := drop_cons_facts (show d.drop o = 195 :: rest by simpa using hdrop)
    obtain ⟨f, rfl⟩ : ∃ f, fuel = f + 1 := ⟨fuel - 1, by simp at hfuel; omega⟩
    rw [unpackValue_succ, if_neg (by omega), hget, step_true]
    rfl

theorem rt_float (bits : Nat) : RT (.float bits) := by
  intro hwf enc hpack fuel d o rest hfuel hdrop
  simp only [wfVal, decide_eq_true_eq] at hwf
  simp only [packValue, packFloat] at hpack
  cases hpack
  obtain ⟨hget, ho, hdropA⟩ := drop_cons_facts
    (show d.drop o = 203 :: (be 8 bits ++ rest) by simpa using hdrop)
  obtain ⟨f, rfl⟩ : ∃ f, fuel = f + 1 := ⟨fuel - 1, by simp at hfuel; omega⟩
  have hob : o + 1 ≤ d.length := drop_append_bound hdropA (by simp [length_be])
  obtain ⟨htake, _, hbound⟩ := drop_seg_facts hob hdropA
  rw [length_be] at htake hbound
  rw [unpackValue_succ, if_neg (by omega), hget, step_float64, if_pos (by omega), htake,
    beVal_be, Nat.mod_eq_of_lt (by norm_num; omega)]
  simp [length_be]

theorem decode_signed1 (n : Int) (h1 : -128 ≤ n) (h2 : n < 0) :
    toSigned 1 (beVal (be 1 (n + 256).toNat)) = n := by
  have h := decode_signed 1 n (by norm_num) (by norm_num; exact h1) h2
  norm_num at h
  exact h

theorem decode_signed2 (n : Int) (h1 : -32768 ≤ n) (h2 : n < 0) :
    toSigned 2 (beVal (be 2 (n + 65536).toNat)) = n := by
  have h := decode_signed 2 n (by norm_num) (by norm_num; exact h1) h2
  norm_num at h
  exact h

theorem decode_signed4 (n : Int) (h1 : -2147483648 ≤ n) (h2 : n < 0) :
    toSigned 4 (beVal (be 4 (n + 4294967296).toNat)) = n := by
  have h := decode_signed 4 n (by norm_num) (by norm_num; exact h1) h2
  norm_num at h
  exact h

theorem decode_signed8 (n : Int) (h1 : -9223372036854775808 ≤ n) (h2 : n < 0) :
    toSigned 8 (beVal (be 8 (n + 18446744073709551616).toNat)) = n := by
  have h := decode_signed 8 n (by norm_num) (by norm_num; exact h1) h2
  norm_num at h
  exact h

set_option maxHeartbeats 2000000 in
theorem rt_int (n : Int) : RT (.int n) := by
  intro hwf enc hpack fuel d o rest hfuel hdrop
  simp only [packValue] at hpack
  unfold packInt at hpack
  split_ifs at hpack with h1 h2 h3 h4 h5 h6 h7 h8 h9 h10 <;> cases hpack
  · obtain ⟨hget, ho, _⟩ := drop_cons_facts
      (show d.drop o = n.toNat :: rest by simpa using hdrop)
    obtain ⟨f, rfl⟩ : ∃ f, fuel = f + 1 := ⟨fuel - 1, by simp at hfuel; omega⟩
    rw [unpackValue_succ, if_neg (by omega), hget, step_fixint _ _ _ _ (by omega),
      Int.toNat_of_nonneg h1.1]
    rfl
  · obtain ⟨hget, ho, _⟩ := drop_cons_facts
      (show d.drop o = (n + 256).toNat :: rest by simpa using hdrop)
    obtain ⟨f, rfl⟩ : ∃ f, fuel = f + 1 := ⟨fuel - 1, by simp at hfuel; omega⟩
    rw [unpackValue_succ, if_neg (by omega), hget, step_negfix _ _ _ _ (by omega)]
    have hval : ((n + 256).toNat : Int) - 256 = n := by omega
    rw [hval]
    rfl
  · obtain ⟨hget, ho, hdropA⟩ := drop_cons_facts
      (show d.drop o = 204 :: (n.toNat :: rest) by simpa using hdrop)
    obtain ⟨hget2, ho2, _⟩ := drop_cons_facts hdropA
    obtain ⟨f, rfl⟩ : ∃ f, fuel = f + 1 := ⟨fuel - 1, by simp at hfuel; omega⟩
    rw [unpackValue_succ, if_neg (by omega), hget, step_uint8, if_pos (by omega), hget2,
      Int.toNat_of_nonneg h3.1]
    rfl
  · obtain ⟨hget, ho, hdropA⟩ := drop_cons_facts
      (show d.drop o = 205 :: (be 2 n.toNat ++ rest) by simpa using hdrop)
    obtain ⟨f, rfl⟩ : ∃ f, fuel = f + 1 := ⟨fuel - 1, by simp at hfuel; omega⟩
    have hob : o + 1 ≤ d.length := drop_append_bound hdropA (by simp [length_be])
    obtain ⟨htake, _, hbound⟩ := drop_seg_facts hob hdropA
    rw [length_be] at htake hbound
    rw [unpackValue_succ, if_neg (by omega), hget, step_uint16, if_pos (by omega), htake,
      decode_unsigned 2 n h4.1 (by norm_num; omega)]
    simp [length_be]
  · obtain ⟨hget, ho, hdropA⟩ := drop_cons_facts
      (show d.drop o = 206 :: (be 4 n.toNat ++ rest) by simpa using hdrop)
    obtain ⟨f, rfl⟩ : ∃ f, fuel = f + 1 := ⟨fuel - 1, by simp at hfuel; omega⟩
    have hob : o + 1 ≤ d.length := drop_append_bound hdropA (by simp [length_be])
    obtain ⟨htake, _, hbound⟩ := drop_seg_facts hob hdropA
    rw [length_be] at htake hbound
    rw [unpackValue_succ, if_neg (by omega), hget, step_uint32, if_pos (by omega), htake,
      decode_unsigned 4 n h5.1 (by norm_num; omega)]
    simp [length_be]
  · obtain ⟨hget, ho, hdropA⟩ := drop_cons_facts
      (show d.drop o = 207 :: (be 8 n.toNat ++ rest) by simpa using hdrop)
    obtain ⟨f, rfl⟩ : ∃ f, fuel = f + 1 := ⟨fuel - 1, by simp at hfuel; omega⟩
    have hob : o + 1 ≤ d.length := drop_append_bound hdropA (by simp [length_be])
    obtain ⟨htake, _, hbound⟩ := drop_seg_facts hob hdropA
    rw [length_be] at htake hbound
    rw [unpackValue_succ, if_neg (by omega), hget, step_uint64, if_pos (by omega), htake,
      decode_unsigned 8 n h6.1 (by norm_num; omega)]
    simp [length_be]
  · obtain ⟨hget, ho, hdropA⟩ := drop_cons_facts
      (show d.drop o = 208 :: (be 1 (n + 256).toNat ++ rest) by simpa using hdrop)
    obtain ⟨f, rfl⟩ : ∃ f, fuel = f + 1 := ⟨fuel - 1, by simp at hfuel; omega⟩
    have hob : o + 1 ≤ d.length := drop_append_bound hdropA (by simp [length_be])
    obtain ⟨htake, _, hbound⟩ := drop_seg_facts hob hdropA
    rw [length_be] at htake hbound
    rw [unpackValue_succ, if_neg (by omega), hget, step_int8, if_pos (by omega), htake,
      decode_signed1 n h7.1 h7.2]
    simp [length_be]
  · obtain ⟨hget, ho, hdropA⟩ := drop_cons_facts
      (show d.drop o = 209 :: (be 2 (n + 65536).toNat ++ rest) by simpa using hdrop)
    obtain ⟨f, rfl⟩ : ∃ f, fuel = f + 1 := ⟨fuel - 1, by simp at hfuel; omega⟩
    have hob : o + 1 ≤ d.length := drop_append_bound hdropA (by simp [length_be])
    obtain ⟨htake, _, hbound⟩ := drop_seg_facts hob hdropA
    rw [length_be] at htake hbound
    rw [unpackValue_succ, if_neg (by omega), hget, step_int16, if_pos (by omega), htake,
      decode_signed2 n h8.1 h8.2]
    simp [length_be]
  · obtain ⟨hget, ho, hdropA⟩ := drop_cons_facts
      (show d.drop o = 210 :: (be 4 (n + 4294967296).toNat ++ rest) by simpa using hdrop)
    obtain ⟨f, rfl⟩ : ∃ f, fuel = f + 1 := ⟨fuel - 1, by simp at hfuel; omega⟩
    have hob : o + 1 ≤ d.length := drop_append_bound hdropA (by simp [length_be])
    obtain ⟨htake, _, hbound⟩ := drop_seg_facts hob hdropA
    rw [length_be] at htake hbound
    rw [unpackValue_succ, if_neg (by omega), hget, step_int32, if_pos (by omega), htake,
      decode_signed4 n h9.1 h9.2]
    simp [length_be]
  · obtain ⟨hget, ho, hdropA⟩ := drop_cons_facts
      (show d.drop o = 211 :: (be 8 (n + 18446744073709551616).toNat ++ rest) by
        simpa using hdrop)
    obtain ⟨f, rfl⟩ : ∃ f, fuel = f + 1 := ⟨fuel - 1, by simp at hfuel; omega⟩
    have hob : o + 1 ≤ d.length := drop_append_bound hdropA (by simp [length_be])
    obtain ⟨htake, _, hbound⟩ := drop_seg_facts hob hdropA
    rw [length_be] at htake hbound
    have hneg : n < 0 := by omega
    rw [unpackValue_succ, if_neg (by omega), hget, step_int64, if_pos (by omega), htake,
      decode_signed8 n h10.1 hneg]
    simp [length_be]

theorem rt_str (s : List Nat) : RT (.str s) := by
  intro hwf enc hpack fuel d o rest hfuel hdrop
  simp only [wfVal, Bool.and_eq_true, decide_eq_true_eq] at hwf
  simp only [packValue] at hpack
  unfold packStr at hpack
  split_ifs at hpack with h1 h2 h3 h4 <;> cases hpack
  · rw [lor160 h1] at hdrop
    obtain ⟨hget, ho, hdropA⟩ := drop_cons_facts
      (show d.drop o = (160 + s.length) :: (s ++ rest) by simpa using hdrop)
    obtain ⟨f, rfl⟩ : ∃ f, fuel = f + 1 := ⟨fuel - 1, by simp at hfuel; omega⟩
    obtain ⟨htake, _, hbound⟩ := drop_seg_facts (by omega) hdropA
    rw [unpackValue_succ, if_neg (by omega), hget,
      step_fixstr _ _ _ _ (by omega) (by omega), land31 h1]
    unfold unpackStr
    rw [htake, if_pos hwf.2]
    have heq : o + 1 + s.length = o + (s.length + 1) := by omega
    simp only [List.length_cons]
    rw [heq]
  · obtain ⟨hget, ho, hdropA⟩ := drop_cons_facts
      (show d.drop o = 217 :: (s.length :: (s ++ rest)) by simpa using hdrop)
    obtain ⟨hget2, ho2, hdropB⟩ := drop_cons_facts hdropA
    obtain ⟨f, rfl⟩ : ∃ f, fuel = f + 1 := ⟨fuel - 1, by simp at hfuel; omega⟩
    obtain ⟨htake, _, hbound⟩ := drop_seg_facts (by omega) hdropB
    rw [unpackValue_succ, if_neg (by omega), hget, step_str8, if_pos (by omega), hget2]
    unfold unpackStr
    rw [htake, if_pos hwf.2]
    have heq : o + 1 + 1 + s.length = o + (s.length + 1 + 1) := by omega
    simp only [List.length_cons]
    rw [heq]
  · obtain ⟨hget, ho, hdropA⟩ := drop_cons_facts
      (show d.drop o = 218 :: (be 2 s.length ++ (s ++ rest)) by simpa [List.append_assoc] using hdrop)
    obtain ⟨f, rfl⟩ : ∃ f, fuel = f + 1 := ⟨fuel - 1, by simp at hfuel; omega⟩
    have hob : o + 1 ≤ d.length := drop_append_bound hdropA (by simp [length_be])
    obtain ⟨htake, hdropB, hbound⟩ := drop_seg_facts hob hdropA
    rw [length_be] at htake hbound hdropB
    obtain ⟨htake2, _, hbound2⟩ := drop_seg_facts (by omega) hdropB
    rw [unpackValue_succ, if_neg (by omega), hget, step_str16, if_pos (by omega), htake,
      beVal_be, Nat.mod_eq_of_lt (by norm_num; omega)]
    unfold unpackStr
    rw [htake2, if_pos hwf.2]
    have heq : o + 1 + 2 + s.length = o + (s.length + 2 + 1) := by omega
    simp only [List.length_cons, List.length_append, length_be]
    rw [heq]
    simp [Nat.add_comm]
  · obtain ⟨hget, ho, hdropA⟩ := drop_cons_facts
      (show d.drop o = 219 :: (be 4 s.length ++ (s ++ rest)) by simpa [List.append_assoc] using hdrop)
    obtain ⟨f, rfl⟩ : ∃ f, fuel = f + 1 := ⟨fuel - 1, by simp at hfuel; omega⟩
    have hob : o + 1 ≤ d.length := drop_append_bound hdropA (by simp [length_be])
    obtain ⟨htake, hdropB, hbound⟩ := drop_seg_facts hob hdropA
    rw [length_be] at htake hbound hdropB
    obtain ⟨htake2, _, hbound2⟩ := drop_seg_facts (by omega) hdropB
    rw [unpackValue_succ, if_neg (by omega), hget, step_str32, if_pos (by omega), htake,
      beVal_be, Nat.mod_eq_of_lt (by norm_num; omega)]
    unfold unpackStr
    rw [htake2, if_pos hwf.2]
    have heq : o + 1 + 4 + s.length = o + (s.length + 4 + 1) := by omega
    simp only [List.length_cons, List.length_append, length_be]
    rw [heq]
    simp [Nat.add_comm]

theorem rt_bytes (b : List Nat) : RT (.bytes b) := by
  intro hwf enc hpack fuel d o rest hfuel hdrop
  simp only [packValue] at hpack
  unfold packBytes at hpack
  split_ifs at hpack with h1 h2 h3 <;> cases hpack
  · obtain ⟨hget, ho, hdropA⟩ := drop_cons_facts
      (show d.drop o = 196 :: (b.length :: (b ++ rest)) by simpa using hdrop)
    obtain ⟨hget2, ho2, hdropB⟩ := drop_cons_facts hdropA
    obtain ⟨f, rfl⟩ : ∃ f, fuel = f + 1 := ⟨fuel - 1, by simp at hfuel; omega⟩
    obtain ⟨htake, _, hbound⟩ := drop_seg_facts (by omega) hdropB
    rw [unpackValue_succ, if_neg (by omega), hget, step_bin8, if_pos (by omega), hget2, htake]
    have heq : o + 1 + 1 + b.length = o + (b.length + 1 + 1) := by omega
    simp only [List.length_cons]
    rw [heq]
  · obtain ⟨hget, ho, hdropA⟩ := drop_cons_facts
      (show d.drop o = 197 :: (be 2 b.length ++ (b ++ rest)) by simpa [List.append_assoc] using hdrop)
    obtain ⟨f, rfl⟩ : ∃ f, fuel = f + 1 := ⟨fuel - 1, by simp at hfuel; omega⟩
    have hob : o + 1 ≤ d.length := drop_append_bound hdropA (by simp [length_be])
    obtain ⟨htake, hdropB, hbound⟩ := drop_seg_facts hob hdropA
    rw [length_be] at htake hbound hdropB
    obtain ⟨htake2, _, hbound2⟩ := drop_seg_facts (by omega) hdropB
    rw [unpackValue_succ, if_neg (by omega), hget, step_bin16, if_pos (by omega), htake,
      beVal_be, Nat.mod_eq_of_lt (by norm_num; omega), htake2]
    have heq : o + 1 + 2 + b.length = o + (b.length + 2 + 1) := by omega
    simp only [List.length_cons, List.length_append, length_be]
    rw [heq]
    simp [Nat.add_comm]
  · obtain ⟨hget, ho, hdropA⟩ := drop_cons_facts
      (show d.drop o = 198 :: (be 4 b.length ++ (b ++ rest)) by simpa [List.append_assoc] using hdrop)
    obtain ⟨f, rfl⟩ : ∃ f, fuel = f + 1 := ⟨fuel - 1, by simp at hfuel; omega⟩
    have hob : o + 1 ≤ d.length := drop_append_bound hdropA (by simp [length_be])
    obtain ⟨htake, hdropB, hbound⟩ := drop_seg_facts hob hdropA
    rw [length_be] at htake hbound hdropB
    obtain ⟨htake2, _, hbound2⟩ := drop_seg_facts (by omega) hdropB
    have h4 : b.length < 4294967296 := by
      simp only [wfVal, Bool.and_eq_true, decide_eq_true_eq] at hwf
      exact hwf.1
    rw [unpackValue_succ, if_neg (by omega), hget, step_bin32, if_pos (by omega), htake,
      beVal_be, Nat.mod_eq_of_lt (by norm_num; omega), htake2]
    have heq : o + 1 + 4 + b.length = o + (b.length + 4 + 1) := by omega
    simp only [List.length_cons, List.length_append, length_be]
    rw [heq]
    simp [Nat.add_comm]

theorem wfPairs_mem (kvs : List (Value × Value)) (h : wfPairs kvs = true) :
    ∀ p ∈ kvs, wfVal p.1 = true ∧ wfVal p.2 = true ∧ hashableKey p.1 = true := by
  induction kvs with
  | nil => intro p hp; cases hp
  | cons q t ih =>
    obtain ⟨k, v⟩ := q
    simp only [wfPairs, Bool.and_eq_true] at h
    obtain ⟨⟨⟨⟨hk, hv⟩, hh⟩, _⟩, ht⟩ := h
    intro p hp
    rcases List.mem_cons.mp hp with heq | hmem
    · cases heq
      exact ⟨hk, hv, hh⟩
    · exact ih ht p hmem

theorem rt_aux : ∀ N, ∀ v : Value, sizeOf v ≤ N → RT v := by
  intro N
  induction N with
  | zero =>
    intro v h
    exfalso
    cases v <;> simp at h <;> omega
  | succ N ih =>
    intro v hsz
    cases v with
    | nil => exact rt_nil
    | bool b => exact rt_bool b
    | int n => exact rt_int n
    | float bits => exact rt_float bits
    | str s => exact rt_str s
    | bytes b => exact rt_bytes b
    | record name fields => intro hwf; simp [wfVal] at hwf
    | other ty => intro hwf; simp [wfVal] at hwf
    | list xs =>
      intro hwf enc hpack fuel d o rest hfuel hdrop
      simp only [wfVal, Bool.and_eq_true, decide_eq_true_eq] at hwf
      simp only [packValue] at hpack
      cases hh : arrayHeader xs.length with
      | error e => rw [hh] at hpack; cases hpack
      | ok hd =>
        rw [hh] at hpack
        cases hb : packSeq xs with
        | error e => rw [hb] at hpack; cases hpack
        | ok body =>
          rw [hb] at hpack
          cases hpack
          have hrtxs : ∀ x ∈ xs, RT x := by
            intro x hx
            apply ih
            have hlt := List.sizeOf_lt_of_mem hx
            simp at hsz
            omega
          unfold arrayHeader at hh
          split_ifs at hh with g1 g2 g3 <;> cases hh
          · obtain ⟨hget, ho, hdropA⟩ := drop_cons_facts
              (show d.drop o = (144 + xs.length) :: (body ++ rest) by
                simpa [lor144 g1] using hdrop)
            obtain ⟨f, rfl⟩ : ∃ f, fuel = f + 1 := ⟨fuel - 1, by simp at hfuel; omega⟩
            have harr := seqLoop_ok f d xs body (o + 1) rest hrtxs hwf.2 hb
              (by simp at hfuel; omega) hdropA
            rw [unpackValue_succ, if_neg (by omega), hget,
              step_fixarray _ _ _ _ (by omega) (by omega), land15a g1, harr]
            simp [List.length_append, Nat.add_assoc, lor144 g1]
            omega
          · obtain ⟨hget, ho, hdropA⟩ := drop_cons_facts
              (show d.drop o = 220 :: (be 2 xs.length ++ (body ++ rest)) by
                simpa [List.append_assoc] using hdrop)
            obtain ⟨f, rfl⟩ : ∃ f, fuel = f + 1 := ⟨fuel - 1, by simp at hfuel; omega⟩
            have hob : o + 1 ≤ d.length := drop_append_bound hdropA (by simp [length_be])
            obtain ⟨htake, hdropB, hbound⟩ := drop_seg_facts hob hdropA
            rw [length_be] at htake hbound hdropB
            have harr := seqLoop_ok f d xs body (o + 1 + 2) rest hrtxs hwf.2 hb
              (by simp [length_be] at hfuel; omega) hdropB
            rw [unpackValue_succ, if_neg (by omega), hget, step_arr16, if_pos (by omega),
              htake, beVal_be, Nat.mod_eq_of_lt (by norm_num; omega), harr]
            simp [List.length_append, length_be, Nat.add_assoc]
            omega
          · obtain ⟨hget, ho, hdropA⟩ := drop_cons_facts
              (show d.drop o = 221 :: (be 4 xs.length ++ (body ++ rest)) by
                simpa [List.append_assoc] using hdrop)
            obtain ⟨f, rfl⟩ : ∃ f, fuel = f + 1 := ⟨fuel - 1, by simp at hfuel; omega⟩
            have hob : o + 1 ≤ d.length := drop_append_bound hdropA (by simp [length_be])
            obtain ⟨htake, hdropB, hbound⟩ := drop_seg_facts hob hdropA
            rw [length_be] at htake hbound hdropB
            have harr := seqLoop_ok f d xs body (o + 1 + 4) rest hrtxs hwf.2 hb
              (by simp [length_be] at hfuel; omega) hdropB
            rw [unpackValue_succ, if_neg (by omega), hget, step_arr32, if_pos (by omega),
              htake, beVal_be, Nat.mod_eq_of_lt (by norm_num; omega), harr]
            simp [List.length_append, length_be, Nat.add_assoc]
            omega
    | dict kvs =>
      intro hwf enc hpack fuel d o rest hfuel hdrop
      simp only [wfVal, Bool.and_eq_true, decide_eq_true_eq] at hwf
      simp only [packValue] at hpack
      cases hh : mapHeader kvs.length with
      | error e => rw [hh] at hpack; cases hpack
      | ok hd =>
        rw [hh] at hpack
        cases hb : packPairs kvs with
        | error e => rw [hb] at hpack; cases hpack
        | ok body =>
          rw [hb] at hpack
          cases hpack
          have hrtp : ∀ p ∈ kvs, RT p.1 ∧ RT p.2 := by
            intro p hp
            have hlt := List.sizeOf_lt_of_mem hp
            obtain ⟨k, v⟩ := p
            simp at hsz hlt
            exact ⟨ih k (by omega), ih v (by omega)⟩
          have hwfp := wfPairs_mem kvs hwf.2
          have hfold : List.foldl (fun a p => dictSet a p.1 p.2) [] kvs = kvs := by
            have := foldl_dictSet_eq kvs [] hwf.2 (fun p _ => rfl)
            simpa using this
          unfold mapHeader at hh
          split_ifs at hh with g1 g2 g3 <;> cases hh
          · obtain ⟨hget, ho, hdropA⟩ := drop_cons_facts
              (show d.drop o = (128 + kvs.length) :: (body ++ rest) by
                simpa [lor128 g1] using hdrop)
            obtain ⟨f, rfl⟩ : ∃ f, fuel = f + 1 := ⟨fuel - 1, by simp at hfuel; omega⟩
            have hmap := pairsLoop_ok f d kvs body (o + 1) rest [] hrtp hwfp hb
              (by simp at hfuel; omega) hdropA
            rw [unpackValue_succ, if_neg (by omega), hget,
              step_fixmap _ _ _ _ (by omega) (by omega), land15m g1, hmap, hfold]
            simp [List.length_append, Nat.add_assoc, lor128 g1]
            omega
          · obtain ⟨hget, ho, hdropA⟩ := drop_cons_facts
              (show d.drop o = 222 :: (be 2 kvs.length ++ (body ++ rest)) by
                simpa [List.append_assoc] using hdrop)
            obtain ⟨f, rfl⟩ : ∃ f, fuel = f + 1 := ⟨fuel - 1, by simp at hfuel; omega⟩
            have hob : o + 1 ≤ d.length := drop_append_bound hdropA (by simp [length_be])
            obtain ⟨htake, hdropB, hbound⟩ := drop_seg_facts hob hdropA
            rw [length_be] at htake hbound hdropB
            have hmap := pairsLoop_ok f d kvs body (o + 1 + 2) rest [] hrtp hwfp hb
              (by simp [length_be] at hfuel; omega) hdropB
            rw [unpackValue_succ, if_neg (by omega), hget, step_map16, if_pos (by omega),
              htake, beVal_be, Nat.mod_eq_of_lt (by norm_num; omega), hmap, hfold]
            simp [List.length_append, length_be, Nat.add_assoc]
            omega
          · obtain ⟨hget, ho, hdropA⟩ := drop_cons_facts
              (show d.drop o = 223 :: (be 4 kvs.length ++ (body ++ rest)) by
                simpa [List.append_assoc] using hdrop)
            obtain ⟨f, rfl⟩ : ∃ f, fuel = f + 1 := ⟨fuel - 1, by simp at hfuel; omega⟩
            have hob : o + 1 ≤ d.length := drop_append_bound hdropA (by simp [length_be])
            obtain ⟨htake, hdropB, hbound⟩ := drop_seg_facts hob hdropA
            rw [length_be] at htake hbound hdropB
            have hmap := pairsLoop_ok f d kvs body (o + 1 + 4) rest [] hrtp hwfp hb
              (by simp [length_be] at hfuel; omega) hdropB
            rw [unpackValue_succ, if_neg (by omega), hget, step_map32, if_pos (by omega),
              htake, beVal_be, Nat.mod_eq_of_lt (by norm_num; omega), hmap, hfold]
            simp [List.length_append, length_be, Nat.add_assoc]
            omega

theorem roundTrip (v : Value) : RT v := rt_aux (sizeOf v) v le_rfl

theorem pack_unsupported_aux : ∀ N,
    (∀ v : Value, sizeOf v ≤ N → wfWidths v = true → hasUnsupported v = true →
      packValue v = .error .typeUnsupported) ∧
    (∀ xs : List Value, sizeOf xs ≤ N → wfWidthsL xs = true → hasUnsupportedL xs = true →
      packSeq xs = .error .typeUnsupported) ∧
    (∀ kvs : List (Value × Value), sizeOf kvs ≤ N → wfWidthsP kvs = true →
      hasUnsupportedP kvs = true → packPairs kvs = .error .typeUnsupported) := by
  intro N
  induction N with
  | zero =>
    refine ⟨?_, ?_, ?_⟩ <;> intro v h <;> exfalso <;> cases v <;> simp at h <;> omega
  | succ N ih =>
    obtain ⟨ihV, ihL, ihP⟩ := ih
    refine ⟨?_, ?_, ?_⟩
    · intro v hsz hw hu
      cases v with
      | nil => simp [hasUnsupported] at hu
      | bool b => simp [hasUnsupported] at hu
      | int n => simp [hasUnsupported] at hu
      | float bits => simp [hasUnsupported] at hu
      | str s => simp [hasUnsupported] at hu
      | bytes b => simp [hasUnsupported] at hu
      | list xs =>
        simp only [wfWidths, Bool.and_eq_true, decide_eq_true_eq] at hw
        simp only [hasUnsupported] at hu
        obtain ⟨hd, hhd⟩ := arrayHeader_ok xs.length hw.1
        have hseq := ihL xs (by simp at hsz; omega) hw.2 hu
        simp [packValue, hhd, hseq]
      | dict kvs =>
        simp only [wfWidths, Bool.and_eq_true, decide_eq_true_eq] at hw
        simp only [hasUnsupported] at hu
        obtain ⟨hd, hhd⟩ := mapHeader_ok kvs.length hw.1
        have hseq := ihP kvs (by simp at hsz; omega) hw.2 hu
        simp [packValue, hhd, hseq]
      | record name fields => rfl
      | other ty => rfl
    · intro xs hsz hw hu
      cases xs with
      | nil => simp [hasUnsupportedL] at hu
      | cons x t =>
        simp only [wfWidthsL, Bool.and_eq_true] at hw
        simp only [hasUnsupportedL, Bool.or_eq_true] at hu
        cases hux : hasUnsupported x with
        | true =>
          have hx := ihV x (by simp at hsz; omega) hw.1 hux
          simp [packSeq, hx]
        | false =>
          obtain ⟨xb, hxb⟩ := pack_ok x hw.1 hux
          have hut : hasUnsupportedL t = true := by
            rcases hu with h | h
            · rw [hux] at h; cases h
            · exact h
          have ht := ihL t (by simp at hsz; omega) hw.2 hut
          simp [packSeq, hxb, ht]
    · intro kvs hsz hw hu
      cases kvs with
      | nil => simp [hasUnsupportedP] at hu
      | cons p t =>
        obtain ⟨k, v⟩ := p
        simp only [wfWidthsP, Bool.and_eq_true] at hw
        obtain ⟨⟨hwk, hwv⟩, hwt⟩ := hw
        simp only [hasUnsupportedP, Bool.or_eq_true] at hu
        cases huk : hasUnsupported k with
        | true =>
          have hk := ihV k (by simp at hsz; omega) hwk huk
          simp [packPairs, hk]
        | false =>
          obtain ⟨kb, hkb⟩ := pack_ok k hwk huk
          cases huv : hasUnsupported v with
          | true =>
            have hv := ihV v (by simp at hsz; omega) hwv huv
            simp [packPairs, hkb, hv]
          | false =>
            obtain ⟨vb, hvb⟩ := pack_ok v hwv huv
            have hut : hasUnsupportedP t = true := by
              rcases hu with (h | h) | h
              · rw [huk] at h; cases h
              · rw [huv] at h; cases h
              · exact h
            have ht := ihP t (by simp at hsz; omega) hwt hut
            simp [packPairs, hkb, hvb, ht]

theorem dict_decode (kvs : List (Value × Value)) (hd body : List Nat)
    (hwf : ∀ p ∈ kvs, wfVal p.1 = true ∧ wfVal p.2 = true ∧ hashableKey p.1 = true)
    (hh : mapHeader kvs.length = .ok hd) (hb : packPairs kvs = .ok body) :
    ∀ fuel d o rest, (hd ++ body).length ≤ fuel → d.drop o = (hd ++ body) ++ rest →
      unpackValue fuel d o =
        .ok (.dict (List.foldl (fun a p => dictSet a p.1 p.2) [] kvs),
             o + (hd ++ body).length) := by
  intro fuel d o rest hfuel hdrop
  have hrtp : ∀ p ∈ kvs, RT p.1 ∧ RT p.2 := fun p _ => ⟨roundTrip p.1, roundTrip p.2⟩
  unfold mapHeader at hh
  split_ifs at hh with g1 g2 g3 <;> cases hh
  · obtain ⟨hget, ho, hdropA⟩ := drop_cons_facts
      (show d.drop o = (128 + kvs.length) :: (body ++ rest) by
        simpa [lor128 g1] using hdrop)
    obtain ⟨f, rfl⟩ : ∃ f, fuel = f + 1 := ⟨fuel - 1, by simp at hfuel; omega⟩
    have hmap := pairsLoop_ok f d kvs body (o + 1) rest [] hrtp hwf hb
      (by simp at hfuel; omega) hdropA
    rw [unpackValue_succ, if_neg (by omega), hget,
      step_fixmap _ _ _ _ (by omega) (by omega), land15m g1, hmap]
    simp [List.length_append, Nat.add_assoc, lor128 g1]
    omega
  · obtain ⟨hget, ho, hdropA⟩ := drop_cons_facts
      (show d.drop o = 222 :: (be 2 kvs.length ++ (body ++ rest)) by
        simpa [List.append_assoc] using hdrop)
    obtain ⟨f, rfl⟩ : ∃ f, fuel = f + 1 := ⟨fuel - 1, by simp at hfuel; omega⟩
    have hob : o + 1 ≤ d.length := drop_append_bound hdropA (by simp [length_be])
    obtain ⟨htake, hdropB, hbound⟩ := drop_seg_facts hob hdropA
    rw [length_be] at htake hbound hdropB
    have hmap := pairsLoop_ok f d kvs body (o + 1 + 2) rest [] hrtp hwf hb
      (by simp [length_be] at hfuel; omega) hdropB
    rw [unpackValue_succ, if_neg (by omega), hget, step_map16, if_pos (by omega),
      htake, beVal_be, Nat.mod_eq_of_lt (by norm_num; omega), hmap]
    simp [List.length_append, length_be, Nat.add_assoc]
    omega
  · obtain ⟨hget, ho, hdropA⟩ := drop_cons_facts
      (show d.drop o = 223 :: (be 4 kvs.length ++ (body ++ rest)) by
        simpa [List.append_assoc] using hdrop)
    obtain ⟨f, rfl⟩ : ∃ f, fuel = f + 1 := ⟨fuel - 1, by simp at hfuel; omega⟩
    have hob : o + 1 ≤ d.length := drop_append_bound hdropA (by simp [length_be])
    obtain ⟨htake, hdropB, hbound⟩ := drop_seg_facts hob hdropA
    rw [length_be] at htake hbound hdropB
    have hmap := pairsLoop_ok f d kvs body (o + 1 + 4) rest [] hrtp hwf hb
      (by simp [length_be] at hfuel; omega) hdropB
    rw [unpackValue_succ, if_neg (by omega), hget, step_map32, if_pos (by omega),
      htake, beVal_be, Nat.mod_eq_of_lt (by norm_num; omega), hmap]
    simp [List.length_append, length_be, Nat.add_assoc]
    omega

/-- C1: for every value composed only of None, booleans, integers within
the 64-bit ladder, floats, strings, byte sequences, lists and mappings of
such values (well-formedness also records the format length caps and the
Python dict key discipline), packing succeeds and unpacking the packed
bytes returns the value itself. -/
theorem C1_round_trip (v : Value) (hwf : wfVal v = true) :
    ∃ enc, pack v = .ok enc ∧ unpack enc = .ok v := by
  obtain ⟨hw, hu⟩ := wfVal_imp v hwf
  obtain ⟨enc, henc⟩ := pack_ok v hw hu
  refine ⟨enc, henc, ?_⟩
  have h := roundTrip v hwf enc henc (enc.length + 1) enc 0 [] (by omega) (by simp)
  unfold unpack
  rw [h]

theorem C1_round_trip_witness :
    wfVal (.dict [(.str [97], .list [.int (-33), .bool true]), (.str [98], .bytes [255])]) =
      true ∧
    ∃ enc,
      pack (.dict [(.str [97], .list [.int (-33), .bool true]), (.str [98], .bytes [255])]) =
        .ok enc ∧
      unpack enc =
        .ok (.dict [(.str [97], .list [.int (-33), .bool true]), (.str [98], .bytes [255])]) :=
  ⟨by rfl, C1_round_trip _ (by rfl)⟩

/-- C9: unpack returns the first complete decoded value and silently
ignores any trailing bytes: for every packable value and every byte
suffix, decoding the packed bytes followed by the suffix succeeds and
returns the original value. -/
theorem C9_trailing_bytes (v : Value) (s enc : List Nat) (hwf : wfVal v = true)
    (henc : pack v = .ok enc) : unpack (enc ++ s) = .ok v := by
  have h := roundTrip v hwf enc henc ((enc ++ s).length + 1) (enc ++ s) 0 s
    (by simp; omega) (by simp)
  unfold unpack
  rw [h]

theorem C9_trailing_bytes_witness :
    wfVal (.int 300) = true ∧ pack (.int 300) = .ok [205, 1, 44] ∧
    unpack ([205, 1, 44] ++ [0, 255, 7]) = .ok (.int 300) :=
  ⟨by rfl, by rfl, C9_trailing_bytes (.int 300) [0, 255, 7] [205, 1, 44] (by rfl) (by rfl)⟩

/-- C2: evidence of the code bug.  pack of the two-byte value b"ab" is
the four-byte stream C4 02 61 62; truncating it by one byte (one byte
short of the final element) makes unpack return the truncated value
b"a" with no error, because the BIN8 payload read in `_unpack_value`
is a lenient Python slice, where the claim and the spec require a
TruncatedInput failure. -/
theorem C2_truncation_bug :
    pack (.bytes [97, 98]) = .ok [196, 2, 97, 98] ∧
    unpack [196, 2, 97] = .ok (.bytes [97]) := ⟨rfl, rfl⟩

/-- C7: every float is emitted at fixed 64-bit width: one float64 marker
byte 0xCB followed by 8 big-endian payload bytes, 9 bytes total; the
emitted marker is never the float32 marker 0xCA. -/
theorem C7_float64_width (bits : Nat) :
    pack (.float bits) = .ok (203 :: be 8 bits) ∧ (203 :: be 8 bits).length = 9 ∧
    (203 :: be 8 bits).headD 0 = 203 ∧ (203 :: be 8 bits).headD 0 ≠ 202 := by
  refine ⟨rfl, by simp [length_be], rfl, by simp⟩

set_option maxHeartbeats 1000000 in
/-- C10: packing an integer outside -2^63 .. 2^64-1 fails, and the
failure is the struct.error of the final signed 64-bit packing step in
`_pack_int` (modelled as structError), not the TypeUnsupported error of
`_pack_value` (modelled as typeUnsupported). -/
theorem C10_out_of_range_int (n : Int)
    (h : n < -9223372036854775808 ∨ 18446744073709551615 < n) :
    pack (.int n) = .error .structError ∧
    PackErr.structError ≠ PackErr.typeUnsupported := by
  refine ⟨?_, by decide⟩
  show packValue (.int n) = _
  simp only [packValue]
  unfold packInt
  split_ifs <;> first | rfl | (exfalso; omega)

theorem C10_out_of_range_int_witness :
    ((18446744073709551616 : Int) < -9223372036854775808 ∨
      (18446744073709551615 : Int) < 18446744073709551616) ∧
    pack (.int 18446744073709551616) = .error .structError ∧
    PackErr.structError ≠ PackErr.typeUnsupported :=
  ⟨Or.inr (by norm_num), C10_out_of_range_int 18446744073709551616 (Or.inr (by norm_num))⟩

set_option maxHeartbeats 2000000 in
/-- C4: for every integer in the encodable range, `_pack_int` emits an
encoding whose total length is an admissible row of the format catalog
of spec section 4.1 and is no longer than any admissible row, i.e. the
narrowest marker whose capacity covers the value; for non-negative
values the emitted marker is on the unsigned ladder; and the four
boundary examples are byte-exact: pack(127) is the single byte 7F,
pack(128) is CC 80, pack(-1) is FF, pack(-33) is D0 DF. -/
theorem C4_minimal_width :
    (∀ n : Int, -9223372036854775808 ≤ n → n ≤ 18446744073709551615 →
      ∃ bs, packInt n = .ok bs ∧ intFormCovers bs.length n ∧
        (∀ w, intFormCovers w n → bs.length ≤ w) ∧
        (0 ≤ n → isUnsignedMarker (bs.headD 0) = true)) ∧
    pack (.int 127) = .ok [127] ∧ pack (.int 128) = .ok [204, 128] ∧
    pack (.int (-1)) = .ok [255] ∧ pack (.int (-33)) = .ok [208, 223] := by
  refine ⟨?_, rfl, rfl, rfl, rfl⟩
  intro n h1 h2
  unfold packInt
  split_ifs with g1 g2 g3 g4 g5 g6 g7 g8 g9 g10
  · refine ⟨_, rfl, ?_, ?_, ?_⟩
    · exact Or.inl ⟨rfl, by omega, by omega⟩
    · intro w hw
      unfold intFormCovers at hw
      have hL : [n.toNat].length = 1 := rfl
      rw [hL]
      rcases hw with h|h|h|h|h|h|h|h|h|h <;> omega
    · intro hn
      unfold isUnsignedMarker
      simp only [List.headD_cons, Bool.or_eq_true, decide_eq_true_eq]
      exact Or.inl (Or.inl (Or.inl (Or.inl (by omega))))
  · refine ⟨_, rfl, ?_, ?_, ?_⟩
    · exact Or.inr (Or.inl ⟨rfl, by omega, by omega⟩)
    · intro w hw
      unfold intFormCovers at hw
      have hL : [(n + 256).toNat].length = 1 := rfl
      rw [hL]
      rcases hw with h|h|h|h|h|h|h|h|h|h <;> omega
    · intro hn
      exfalso
      omega
  · refine ⟨_, rfl, ?_, ?_, ?_⟩
    · exact Or.inr (Or.inr (Or.inl ⟨rfl, by omega, by omega⟩))
    · intro w hw
      unfold intFormCovers at hw
      have hL : [204, n.toNat].length = 2 := rfl
      rw [hL]
      rcases hw with h|h|h|h|h|h|h|h|h|h <;> omega
    · intro hn
      unfold isUnsignedMarker
      simp only [List.headD_cons, Bool.or_eq_true, decide_eq_true_eq]
      exact Or.inl (Or.inl (Or.inl (Or.inr trivial)))
  · refine ⟨_, rfl, ?_, ?_, ?_⟩
    · refine Or.inr (Or.inr (Or.inr (Or.inl ⟨?_, by omega, by omega⟩)))
      simp [length_be]
    · intro w hw
      unfold intFormCovers at hw
      have hL : (205 :: be 2 n.toNat).length = 3 := by simp [length_be]
      rw [hL]
      rcases hw with h|h|h|h|h|h|h|h|h|h <;> omega
    · intro hn
      unfold isUnsignedMarker
      simp only [List.headD_cons, Bool.or_eq_true, decide_eq_true_eq]
      exact Or.inl (Or.inl (Or.inr trivial))
  · refine ⟨_, rfl, ?_, ?_, ?_⟩
    · refine Or.inr (Or.inr (Or.inr (Or.inr (Or.inl ⟨?_, by omega, by omega⟩))))
      simp [length_be]
    · intro w hw
      unfold intFormCovers at hw
      have hL : (206 :: be 4 n.toNat).length = 5 := by simp [length_be]
      rw [hL]
      rcases hw with h|h|h|h|h|h|h|h|h|h <;> omega
    · intro hn
      unfold isUnsignedMarker
      simp only [List.headD_cons, Bool.or_eq_true, decide_eq_true_eq]
      exact Or.inl (Or.inr trivial)
  · refine ⟨_, rfl, ?_, ?_, ?_⟩
    · refine Or.inr (Or.inr (Or.inr (Or.inr (Or.inr (Or.inl ⟨?_, by omega, by omega⟩)))))
      simp [length_be]
    · intro w hw
      unfold intFormCovers at hw
      have hL : (207 :: be 8 n.toNat).length = 9 := by simp [length_be]
      rw [hL]
      rcases hw with h|h|h|h|h|h|h|h|h|h <;> omega
    · intro hn
      unfold isUnsignedMarker
      simp only [List.headD_cons, Bool.or_eq_true, decide_eq_true_eq]
      exact Or.inr trivial
  · refine ⟨_, rfl, ?_, ?_, ?_⟩
    · refine Or.inr (Or.inr (Or.inr (Or.inr (Or.inr (Or.inr (Or.inl
        ⟨?_, by omega, by omega⟩))))))
      simp [length_be]
    · intro w hw
      unfold intFormCovers at hw
      have hL : (208 :: be 1 (n + 256).toNat).length = 2 := by simp [length_be]
      rw [hL]
      rcases hw with h|h|h|h|h|h|h|h|h|h <;> omega
    · intro hn
      exfalso
      omega
  · refine ⟨_, rfl, ?_, ?_, ?_⟩
    · refine Or.inr (Or.inr (Or.inr (Or.inr (Or.inr (Or.inr (Or.inr (Or.inl
        ⟨?_, by omega, by omega⟩)))))))
      simp [length_be]
    · intro w hw
      unfold intFormCovers at hw
      have hL : (209 :: be 2 (n + 65536).toNat).length = 3 := by simp [length_be]
      rw [hL]
      rcases hw with h|h|h|h|h|h|h|h|h|h <;> omega
    · intro hn
      exfalso
      omega
  · refine ⟨_, rfl, ?_, ?_, ?_⟩
    · refine Or.inr (Or.inr (Or.inr (Or.inr (Or.inr (Or.inr (Or.inr (Or.inr (Or.inl
        ⟨?_, by omega, by omega⟩))))))))
      simp [length_be]
    · intro w hw
      unfold intFormCovers at hw
      have hL : (210 :: be 4 (n + 4294967296).toNat).length = 5 := by simp [length_be]
      rw [hL]
      rcases hw with h|h|h|h|h|h|h|h|h|h <;> omega
    · intro hn
      exfalso
      omega
  · refine ⟨_, rfl, ?_, ?_, ?_⟩
    · refine Or.inr (Or.inr (Or.inr (Or.inr (Or.inr (Or.inr (Or.inr (Or.inr (Or.inr
        ⟨?_, by omega, by omega⟩))))))))
      simp [length_be]
    · intro w hw
      unfold intFormCovers at hw
      have hL : (211 :: be 8 (n + 18446744073709551616).toNat).length = 9 := by
        simp [length_be]
      rw [hL]
      rcases hw with h|h|h|h|h|h|h|h|h|h <;> omega
    · intro hn
      exfalso
      omega
  · exfalso
    omega

theorem C4_minimal_width_witness :
    (-9223372036854775808 ≤ (300 : Int)) ∧ ((300 : Int) ≤ 18446744073709551615) ∧
    ∃ bs, packInt 300 = .ok bs ∧ intFormCovers bs.length 300 ∧
      (∀ w, intFormCovers w 300 → bs.length ≤ w) ∧
      (0 ≤ (300 : Int) → isUnsignedMarker (bs.headD 0) = true) :=
  ⟨by norm_num, by norm_num, C4_minimal_width.1 300 (by norm_num) (by norm_num)⟩

/-- C6: counterexample to the claim as stated.  The list containing the
out-of-range integer 2^64 followed by a set-typed value has a sub-value
whose runtime type is none of the eight structural shapes (the set), so
the claim requires pack to fail with TypeUnsupported; but the encoder
meets the out-of-range integer first and fails with the struct width
error instead. -/
theorem C6_counterexample :
    hasUnsupported (.list [.int 18446744073709551616, .other "set"]) = true ∧
    pack (.list [.int 18446744073709551616, .other "set"]) = .error .structError ∧
    pack (.list [.int 18446744073709551616, .other "set"]) ≠ .error .typeUnsupported := by
  refine ⟨by rfl, by rfl, ?_⟩
  intro h
  have h2 : (Except.error PackErr.structError : Except PackErr (List Nat)) =
      .error .typeUnsupported := by
    rw [← h]
    rfl
  cases h2

/-- C6 amended: provided every integer sub-value lies within the 64-bit
ladder and every text, bytes, sequence and mapping length is below 2^32
(so that no struct width error fires first), pack fails with the
TypeUnsupported error exactly when some sub-value has a runtime type
outside the eight structural shapes. -/
theorem C6_type_unsupported (v : Value) (hw : wfWidths v = true) :
    packValue v = .error .typeUnsupported ↔ hasUnsupported v = true := by
  constructor
  · intro h
    by_contra hc
    simp only [Bool.not_eq_true] at hc
    obtain ⟨bs, hbs⟩ := pack_ok v hw hc
    rw [hbs] at h
    cases h
  · intro h
    exact (pack_unsupported_aux (sizeOf v)).1 v le_rfl hw h

theorem C6_type_unsupported_witness :
    wfWidths (.list [.int 3, .other "set"]) = true ∧
    (packValue (.list [.int 3, .other "set"]) = .error .typeUnsupported ↔
      hasUnsupported (.list [.int 3, .other "set"]) = true) :=
  ⟨by rfl, C6_type_unsupported _ (by rfl)⟩

/-- C8: decoding a well-formed mapping stream in which the same key
occurs more than once succeeds with no diagnostic; the result is the
Python dict fold of the pairs in stream order, and every key is bound
to the value of its last occurrence.  The stream is the encoding of an
arbitrary pair sequence, which packValue emits without any key
deduplication. -/
theorem C8_last_write_wins (kvs : List (Value × Value)) (enc : List Nat)
    (hwf : ∀ p ∈ kvs, wfVal p.1 = true ∧ wfVal p.2 = true ∧ hashableKey p.1 = true)
    (henc : pack (.dict kvs) = .ok enc) :
    unpack enc = .ok (.dict (List.foldl (fun a p => dictSet a p.1 p.2) [] kvs)) ∧
    ∀ k, dictLookup (List.foldl (fun a p => dictSet a p.1 p.2) [] kvs) k =
      lastBinding kvs k := by
  constructor
  · simp only [pack, packValue] at henc
    cases hh : mapHeader kvs.length with
    | error e => rw [hh] at henc; cases henc
    | ok hd =>
      rw [hh] at henc
      cases hb : packPairs kvs with
      | error e => rw [hb] at henc; cases henc
      | ok body =>
        rw [hb] at henc
        cases henc
        have h := dict_decode kvs hd body hwf hh hb ((hd ++ body).length + 1)
          (hd ++ body) 0 [] (by omega) (by simp)
        unfold unpack
        rw [h]
  · intro k
    rw [lookup_foldl kvs [] k]
    cases hlb : lastBinding kvs k <;> rfl

theorem C8_last_write_wins_witness :
    (∀ p ∈ ([(Value.str [97], Value.int 1), (Value.str [97], Value.int 2)] :
        List (Value × Value)),
      wfVal p.1 = true ∧ wfVal p.2 = true ∧ hashableKey p.1 = true) ∧
    pack (.dict [(.str [97], .int 1), (.str [97], .int 2)]) =
      .ok [130, 161, 97, 1, 161, 97, 2] ∧
    unpack [130, 161, 97, 1, 161, 97, 2] =
      .ok (.dict (List.foldl (fun a p => dictSet a p.1 p.2) []
        [(Value.str [97], Value.int 1), (Value.str [97], Value.int 2)])) ∧
    dictLookup (List.foldl (fun a p => dictSet a p.1 p.2) []
        [(Value.str [97], Value.int 1), (Value.str [97], Value.int 2)]) (.str [97]) =
      lastBinding [(Value.str [97], Value.int 1), (Value.str [97], Value.int 2)]
        (.str [97]) :=
  ⟨by decide, by rfl,
   (C8_last_write_wins _ _ (by decide) (by rfl)).1,
   (C8_last_write_wins _ _ (by decide) (by rfl)).2 (.str [97])⟩

/-- C3: decoding a byte stream carrying the extension marker with a type
code that has no registry entry succeeds (it does not raise) and returns
the embedded Mapping annotated with a marker field carrying that code.
The stream is the extension marker, the 1-byte code, the encoding of an
arbitrary well-formed mapping, and any trailing bytes; the decoder is
the spec-modelled extension-aware entry point over the core codec. -/
theorem C3_unknown_extension (reg : List (Nat × (Value → Value))) (code : Nat)
    (kvs : List (Value × Value)) (pd rest : List Nat)
    (hcode : code ≤ 255) (hreg : findExt reg code = none)
    (hwf : wfVal (.dict kvs) = true) (hpd : pack (.dict kvs) = .ok pd) :
    unpackE reg (extMarker :: code :: (pd ++ rest)) =
      .ok (.dict (dictSet kvs (.str extKeyName) (.int code))) := by
  have hpay := roundTrip (.dict kvs) hwf pd hpd
    ((extMarker :: code :: (pd ++ rest)).length + 1) (extMarker :: code :: (pd ++ rest))
    2 rest (by simp; omega) (by rfl)
  unfold unpackE
  rw [if_neg (by simp),
    if_pos (show (extMarker :: code :: (pd ++ rest)).getD 0 0 = extMarker from rfl),
    if_pos (by simp), hpay]
  simp [hreg]

theorem C3_unknown_extension_witness :
    (7 ≤ 255) ∧ findExt [] 7 = none ∧ wfVal (.dict [(.str [97], .int 1)]) = true ∧
    pack (.dict [(.str [97], .int 1)]) = .ok [129, 161, 97, 1] ∧
    unpackE [] (extMarker :: 7 :: ([129, 161, 97, 1] ++ [])) =
      .ok (.dict (dictSet [(.str [97], .int 1)] (.str extKeyName) (.int 7))) :=
  ⟨by norm_num, rfl, by rfl, by rfl,
   C3_unknown_extension [] 7 [(.str [97], .int 1)] [129, 161, 97, 1] []
     (by norm_num) rfl (by rfl) (by rfl)⟩

/-- C5: packing a record-like value whose type name is not registered
succeeds through the spec-modelled auto-detection path, and unpacking
the result yields a Mapping that binds the synthetic type-name field to
the record type name and each field name to its value; the decoded
value is a Mapping, never an instance of the record type. -/
theorem C5_record_auto (reg : List (List Nat × Nat)) (name : List Nat)
    (fields : List (Value × Value))
    (hreg : lookupReg reg name = none)
    (hwf : wfVal (recordAsMapping name fields) = true) :
    ∃ enc, packRecordE reg name fields = .ok enc ∧
      unpack enc = .ok (recordAsMapping name fields) ∧
      dictLookup ((Value.str dataclassKey, Value.str name) :: fields)
        (.str dataclassKey) = some (.str name) ∧
      (∀ fk fv, (fk, fv) ∈ fields →
        dictLookup ((Value.str dataclassKey, Value.str name) :: fields) fk = some fv) ∧
      (∀ nm fl, unpack enc ≠ .ok (.record nm fl)) := by
  obtain ⟨hw, hu⟩ := wfVal_imp _ hwf
  obtain ⟨enc, henc⟩ := pack_ok _ hw hu
  have hdec : unpack enc = .ok (recordAsMapping name fields) := by
    have h := roundTrip _ hwf enc henc (enc.length + 1) enc 0 [] (by omega) (by simp)
    unfold unpack
    rw [h]
  refine ⟨enc, ?_, hdec, ?_, ?_, ?_⟩
  · unfold packRecordE
    rw [hreg]
    exact henc
  · simp [dictLookup, beqV_refl]
  · intro fk fv hmem
    have hwfp : wfPairs ((Value.str dataclassKey, Value.str name) :: fields) = true := by
      have hwf2 := hwf
      simp only [recordAsMapping, wfVal, Bool.and_eq_true] at hwf2
      exact hwf2.2
    exact wfPairs_lookup _ fk fv hwfp (by simp [hmem])
  · intro nm fl hcon
    rw [hdec] at hcon
    simp [recordAsMapping] at hcon

theorem C5_record_auto_witness :
    lookupReg [] [85, 115, 101, 114] = none ∧
    wfVal (recordAsMapping [85, 115, 101, 114] [(.str [97], .int 30)]) = true ∧
    ∃ enc, packRecordE [] [85, 115, 101, 114] [(.str [97], .int 30)] = .ok enc ∧
      unpack enc = .ok (recordAsMapping [85, 115, 101, 114] [(.str [97], .int 30)]) ∧
      dictLookup ((Value.str dataclassKey, Value.str [85, 115, 101, 114]) ::
        [(Value.str [97], Value.int 30)]) (.str dataclassKey) =
        some (.str [85, 115, 101, 114]) ∧
      (∀ fk fv, (fk, fv) ∈ [(Value.str [97], Value.int 30)] →
        dictLookup ((Value.str dataclassKey, Value.str [85, 115, 101, 114]) ::
          [(Value.str [97], Value.int 30)]) fk = some fv) ∧
      (∀ nm fl, unpack enc ≠ .ok (.record nm fl)) :=
  ⟨rfl, by rfl, C5_record_auto [] [85, 115, 101, 114] [(.str [97], .int 30)] rfl (by rfl)⟩
